import Mathlib

/-!
Verification development for the tracking-reconciliation bot (src/bot.py).

The Python source is shallowly embedded: pure string manipulation is modelled
on `List Char` with Python semantics (`str.strip`, `str.split(sep)`,
`str.split(sep, 1)`, `in`, `lstrip`, `int(...)`); the stateful reconciliation
pass is modelled as explicit state passing in `Except String`, with external
HTTP calls abstracted as an `Env` record of fallible functions and the calls
actually issued recorded as a list of `Effect`s.  Strings are ASCII in all
relevant inputs; `Char.toUpper` models `str.upper` on that fragment.
-/

namespace Bot

/-- Characters removed by Python's `str.strip()` (ASCII whitespace). -/
def isPySpace (c : Char) : Bool :=
  c = ' ' || c = '\t' || c = '\n' || c = '\r' || c = '\x0b' || c = '\x0c'

/-- Python `s.strip()` on a character list: drop leading and trailing whitespace. -/
def pystripL (s : List Char) : List Char :=
  ((s.dropWhile isPySpace).reverse.dropWhile isPySpace).reverse

/-- Python `s.strip()` on strings. -/
def pystrip (s : String) : String :=
  String.mk (pystripL s.toList)

/-- Python `s.upper()` (ASCII fragment). -/
def pyUpper (s : String) : String :=
  String.mk (s.toList.map Char.toUpper)

/-- Python `s.lstrip('#')`. -/
def lstripHash (s : String) : String :=
  String.mk (s.toList.dropWhile (fun c => c = '#'))

/-- Boolean test that `pat` is a prefix of `s` (Python `s.startswith(pat)`). -/
def isPre : List Char → List Char → Bool
  | [], _ => true
  | _ :: _, [] => false
  | p :: ps, c :: cs => p = c && isPre ps cs

/-- Boolean substring test, Python's `pat in s`. -/
def occursIn (pat : List Char) : List Char → Bool
  | [] => isPre pat []
  | c :: cs => isPre pat (c :: cs) || occursIn pat cs

/-- Cons a character onto the first chunk of a split result. -/
def onHead (c : Char) : List (List Char) → List (List Char)
  | [] => [[c]]
  | chunk :: rest => (c :: chunk) :: rest

/-- Fuel-driven worker for Python `s.split(sep)` with non-empty `sep`:
split on non-overlapping occurrences, scanning left to right.  The fuel is
only there to make the recursion structural; `fuel = s.length` suffices. -/
def splitGo (tok : List Char) : Nat → List Char → List (List Char)
  | _, [] => [[]]
  | 0, s => [s]
  | fuel + 1, c :: s' =>
    if tok.isEmpty then [c :: s']
    else if isPre tok (c :: s') then
      [] :: splitGo tok fuel (s'.drop (tok.length - 1))
    else
      onHead c (splitGo tok fuel s')

/-- Python `s.split(sep)` for non-empty `sep`. -/
def splitOnL (tok s : List Char) : List (List Char) :=
  splitGo tok s.length s

/-- Python `line.split(":", 1)` when `":" in line`: split at the first colon. -/
def splitColon : List Char → Option (List Char × List Char)
  | [] => none
  | c :: rest =>
    if c = ':' then some ([], rest)
    else (splitColon rest).map (fun kv => (c :: kv.1, kv.2))

/-- Model of Python's `int(...)` for a digit run, with single underscores
allowed between digits (PEP 515), returning the accumulated value. -/
def pyDigits (acc : Nat) : List Char → Option Nat
  | [] => some acc
  | '_' :: c :: rest =>
    if c.isDigit then pyDigits (acc * 10 + (c.toNat - 48)) rest else none
  | '_' :: [] => none
  | c :: rest =>
    if c.isDigit then pyDigits (acc * 10 + (c.toNat - 48)) rest else none

/-- Model of Python's `int(s)`: optional surrounding whitespace, optional
sign, then a non-empty digit run (ASCII fragment); `none` models
`ValueError`. -/
def pyParseInt (s : String) : Option Int :=
  match pystripL s.toList with
  | [] => none
  | '-' :: c :: rest =>
    if c.isDigit then (pyDigits (c.toNat - 48) rest).map (fun n => -(n : Int)) else none
  | '+' :: c :: rest =>
    if c.isDigit then (pyDigits (c.toNat - 48) rest).map (fun n => (n : Int)) else none
  | c :: rest =>
    if c.isDigit then (pyDigits (c.toNat - 48) rest).map (fun n => (n : Int)) else none

/-! ### Delivery zones (bot.py lines 74-78 and 422-432) -/

/-- DELIVERY_ZONES constant: zone name, pincode ranges, delivery time, in the
dict's insertion (= iteration) order. -/
def DELIVERY_ZONES : List (String × List (Int × Int) × String) :=
  [ ("Local", [(100000, 110000)], "1-2 days")
  , ("Metro", [(400000, 500000), (700000, 800000)], "2-3 days")
  , ("Standard", [(110000, 400000), (500000, 700000), (800000, 999999)], "3-5 days") ]

/-- Inner loop of get_delivery_zone: first range containing the pincode. -/
def rangesHit (p : Int) : List (Int × Int) → Bool
  | [] => false
  | (lo, hi) :: rest => (decide (lo ≤ p) && decide (p ≤ hi)) || rangesHit p rest

/-- Outer loop of get_delivery_zone over the zone table. -/
def zoneScan (p : Int) : List (String × List (Int × Int) × String) → String × String
  | [] => ("Not Available", "N/A")
  | (zone, ranges, dt) :: rest =>
    if rangesHit p ranges then (zone, dt) else zoneScan p rest

/-- get_delivery_zone (bot.py 422-432): parse the pincode, scan the zone
table, with the "Invalid" fallback on ValueError and "Not Available" when no
range matches. -/
def get_delivery_zone (pincode : String) : String × String :=
  match pyParseInt pincode with
  | none => ("Invalid", "N/A")
  | some p => zoneScan p DELIVERY_ZONES

/-! ### Low-stock alerts (bot.py lines 410-420) -/

/-- One entry of the list returned by check_low_stock_alerts. -/
structure LowStockItem where
  sku : String
  current : Int
  threshold : Int
  deriving DecidableEq, Repr

/-- check_low_stock_alerts (bot.py 410-420): the alert map is a JSON object
(SKU keys, integer thresholds, iterated in insertion order); `inv` models
get_variant_inventory returning `none` when the SKU has no product/variant. -/
def check_low_stock_alerts (alerts : List (String × Int)) (inv : String → Option Int) :
    List LowStockItem :=
  match alerts with
  | [] => []
  | (sku, threshold) :: rest =>
    match inv sku with
    | some current =>
      if current ≤ threshold then
        ⟨sku, current, threshold⟩ :: check_low_stock_alerts rest inv
      else
        check_low_stock_alerts rest inv
    | none => check_low_stock_alerts rest inv

/-! ### Support tickets (bot.py lines 457-465) -/

/-- A support ticket as stored in support_tickets.json. -/
structure Ticket where
  id : String
  orderId : String
  description : String
  status : String
  createdBy : String
  createdAt : String
  updatedAt : String
  deriving DecidableEq, Repr

/-- update_ticket_status (bot.py 457-465).  The store is the JSON object of
tickets keyed by ticket id; `now` models `datetime.now().isoformat()`.
Returns (return value, resulting store, whether the store file was written). -/
def update_ticket_status (tickets : List (String × Ticket)) (ticketId status now : String) :
    Bool × List (String × Ticket) × Bool :=
  if ticketId ∈ tickets.map Prod.fst then
    ( true
    , tickets.map (fun kv =>
        if kv.1 = ticketId then
          (kv.1, { kv.2 with status := status, updatedAt := now })
        else kv)
    , true )
  else
    (false, tickets, false)

/-- Dict lookup on the ticket store (observational view of the JSON object). -/
def lookupKey (k : String) : List (String × Ticket) → Option Ticket
  | [] => none
  | kv :: rest => if kv.1 = k then some kv.2 else lookupKey k rest

/-! ### Zone lookup lemmas -/

/-- Specification-level predicate: some zone of the table has a range
containing the pincode. -/
def inSomeZone (p : Int) : Prop :=
  ∃ zrd ∈ DELIVERY_ZONES, ∃ lohi ∈ zrd.2.1, lohi.1 ≤ p ∧ p ≤ lohi.2

instance (p : Int) : Decidable (inSomeZone p) := by
  unfold inSomeZone
  infer_instance

/-- Sample ticket used in the C10 witness. -/
def ticket1 : Ticket :=
  ⟨"TICKET-0001", "#1001", "Delivery delay", "Open", "u1",
    "2025-07-23T10:00:00", "2025-07-23T10:00:00"⟩

/-- Second sample ticket used in the C10 witness. -/
def ticket2 : Ticket :=
  ⟨"TICKET-0002", "#1002", "Damaged item", "Open", "u2",
    "2025-07-23T11:00:00", "2025-07-23T11:00:00"⟩

/-! ### Reconciliation pass (bot.py lines 161-251 and 603-661)

The external HTTP surface is abstracted as an `Env` of fallible calls
(`Except.error` models a raised requests exception, carrying `str(e)`);
the calls the pass actually issues are recorded in order as `Effect`s.
Feed rows model `csv.DictReader` rows: a missing column is `none`, an empty
cell is `some ""` (both falsy in the Python guards). -/

/-- One CSV feed row (columns TRACKING ID, SHOPIFY ORDER ID, STATUS). -/
structure Row where
  trackingId : Option String
  orderName : Option String
  status : Option String
  deriving DecidableEq, Repr

/-- One order line item, with the fields read by the pass.  `Option` models
JSON fields that `item.get(...)` may find missing. -/
structure LineItem where
  id : Int
  quantity : Int
  sku : Option String
  variantId : Option Int
  fulfillableQuantity : Option Int
  fulfillmentService : Option String
  locationId : Option Int
  deriving DecidableEq, Repr

/-- A Shopify order as read by the pass. -/
structure Order where
  id : Int
  lineItems : List LineItem
  deriving DecidableEq, Repr

/-- External calls issued during a pass, in order. -/
inductive Effect where
  | lookupOrder (name : String)
  | invQuery (sku : String)
  | markOOS (variantId : Int)
  | fulfillCall (orderId : Int) (trackingNumber : String) (trackingCompany : String)
      (lineItems : List (Int × Int)) (locationId : Int)
  | setCarrier (orderId : Int) (title : String)
  deriving DecidableEq, Repr

/-- Abstract environment: the upstream store's responses to each call.
`lookup` is get_shopify_order_by_name (none = empty orders list);
`inventory` is get_variant_inventory (none = SKU has no product/variant);
`markOOS` collapses mark_variant_out_of_stock's GraphQL calls;
`postFulfillment` is the fulfillment-creation POST inside
add_tracking_to_order; `putCarrier` is set_shipping_carrier's PUT. -/
structure Env where
  lookup : String → Except String (Option Order)
  inventory : String → Except String (Option Int)
  markOOS : Int → Except String Bool
  postFulfillment : Int → String → String → List (Int × Int) → Int → Except String Unit
  putCarrier : Int → String → Except String Unit

/-- Accumulated state of one pass: the action log, the ids appended to the
ledger file (new_ids), and the external calls made. -/
structure RunState where
  actions : List String
  appended : List String
  effects : List Effect
  deriving DecidableEq, Repr

/-- Append one action line. -/
def addAction (st : RunState) (a : String) : RunState :=
  { st with actions := st.actions ++ [a] }

/-- Record one external call. -/
def addEffect (st : RunState) (e : Effect) : RunState :=
  { st with effects := st.effects ++ [e] }

/-- Python truthiness of an optional string (`None` and `""` are falsy). -/
def strTruthy : Option String → Bool
  | none => false
  | some s => !(s == "")

/-- Python truthiness of an optional integer (`None` and `0` are falsy). -/
def intTruthy : Option Int → Bool
  | none => false
  | some n => !(n == 0)

/-- Guard of the PACKED branch (bot.py 626):
`status and status.strip().upper() == "PACKED"`. -/
def statusPacked : Option String → Bool
  | none => false
  | some s => !(s == "") && (pyUpper (pystrip s) == "PACKED")

/-- Location resolution inside add_tracking_to_order (bot.py 227-231): the
location id of the first line item with positive fulfillable quantity and
manual fulfillment service. -/
def resolveLocation (o : Order) : Option Int :=
  (o.lineItems.find? (fun it =>
    decide (0 < it.fulfillableQuantity.getD 0) && (it.fulfillmentService == some "manual"))).bind
    (fun it => it.locationId)

/-- Line items of the fulfillment payload (bot.py 225): (id, quantity). -/
def payloadItems (o : Order) : List (Int × Int) :=
  o.lineItems.map (fun it => (it.id, it.quantity))

/-- add_tracking_to_order (bot.py 223-251): raises (Except.error, no call
made) when no truthy location id is found, otherwise issues exactly one
fulfillment-creation POST carrying the tracking id and the fixed carrier.
Returns the outcome and the calls issued. -/
def addTrackingToOrder (env : Env) (o : Order) (trackingId : String) :
    Except String Unit × List Effect :=
  match resolveLocation o with
  | none => (Except.error "No valid location_id found for fulfillment.", [])
  | some loc =>
    if loc = 0 then (Except.error "No valid location_id found for fulfillment.", [])
    else
      ( env.postFulfillment o.id trackingId "India Post Domestic" (payloadItems o) loc
      , [Effect.fulfillCall o.id trackingId "India Post Domestic" (payloadItems o) loc] )

/-- Per-line-item body of the inventory loop (bot.py 634-649). -/
def processItem (env : Env) (oname : String) (st : RunState) (item : LineItem) :
    Except String RunState :=
  match item.sku with
  | none => Except.ok (addAction st ("Order " ++ oname ++ ": Missing SKU or variant ID."))
  | some sku =>
    if sku = "" then
      Except.ok (addAction st ("Order " ++ oname ++ ": Missing SKU or variant ID."))
    else
      match item.variantId with
      | none => Except.ok (addAction st ("Order " ++ oname ++ ": Missing SKU or variant ID."))
      | some vid =>
        if vid = 0 then
          Except.ok (addAction st ("Order " ++ oname ++ ": Missing SKU or variant ID."))
        else
          let st1 := addEffect st (Effect.invQuery sku)
          match env.inventory sku with
          | Except.error e => Except.error e
          | Except.ok none =>
            Except.ok (addAction st1
              ("Order " ++ oname ++ " SKU " ++ sku ++ ": Could not fetch inventory."))
          | Except.ok (some inv) =>
            if inv = 0 then
              let st2 := addEffect st1 (Effect.markOOS vid)
              match env.markOOS vid with
              | Except.error e => Except.error e
              | Except.ok _ =>
                Except.ok (addAction st2
                  ("Order " ++ oname ++ " SKU " ++ sku ++ ": Marked as out of stock."))
            else
              Except.ok (addAction st1
                ("Order " ++ oname ++ " SKU " ++ sku ++ ": In stock (" ++ toString inv ++ ")."))

/-- Inventory loop over an order's line items. -/
def itemsLoop (env : Env) (oname : String) (st : RunState) :
    List LineItem → Except String RunState
  | [] => Except.ok st
  | item :: rest =>
    match processItem env oname st item with
    | Except.error e => Except.error e
    | Except.ok st' => itemsLoop env oname st' rest

/-- Per-row body of the reconciliation loop (bot.py 612-653). -/
def processRow (env : Env) (processed : List String) (st : RunState) (row : Row) :
    Except String RunState :=
  match row.trackingId with
  | none => Except.ok st
  | some tid =>
    if tid = "" then Except.ok st
    else if tid ∈ processed then Except.ok st
    else
      let st1 := { st with appended := st.appended ++ [tid] }
      match row.orderName with
      | none => Except.ok (addAction st1 ("Tracking ID " ++ tid ++ ": No order ID found."))
      | some oname =>
        if oname = "" then
          Except.ok (addAction st1 ("Tracking ID " ++ tid ++ ": No order ID found."))
        else
          let st2 := addEffect st1 (Effect.lookupOrder (lstripHash oname))
          match env.lookup (lstripHash oname) with
          | Except.error e => Except.error e
          | Except.ok none =>
            Except.ok (addAction st2
              ("Order " ++ oname ++ " not found for tracking ID " ++ tid ++ "."))
          | Except.ok (some order) =>
            if statusPacked row.status then
              match addTrackingToOrder env order tid with
              | (res, effs) =>
                let st3 := { st2 with effects := st2.effects ++ effs }
                match res with
                | Except.ok _ =>
                  Except.ok (addAction st3
                    ("Order " ++ oname ++ ": Tracking ID " ++ tid ++
                      " and carrier set to India Post Domestic."))
                | Except.error e =>
                  Except.ok (addAction st3
                    ("Order " ++ oname ++ ": Failed to add tracking/carrier: " ++ e))
            else
              match itemsLoop env oname st2 order.lineItems with
              | Except.error e => Except.error e
              | Except.ok st3 =>
                let st4 := addEffect st3 (Effect.setCarrier order.id "India Post Domestic")
                match env.putCarrier order.id "India Post Domestic" with
                | Except.error e => Except.error e
                | Except.ok _ =>
                  Except.ok (addAction st4
                    ("Order " ++ oname ++ ": Shipping carrier set to India Post Domestic."))

/-- Loop over all feed rows. -/
def rowsLoop (env : Env) (processed : List String) (st : RunState) :
    List Row → Except String RunState
  | [] => Except.ok st
  | row :: rest =>
    match processRow env processed st row with
    | Except.error e => Except.error e
    | Except.ok st' => rowsLoop env processed st' rest

/-- checktracking_command's reconciliation body (bot.py 606-654).  A raised
exception (Except.error) is caught by the outer handler, which replies with
the error text: in that case the loop stops, later rows are never processed,
and save_processed_ids is never reached, so nothing is appended to the
ledger file.  On Except.ok the ledger file gains exactly `appended`. -/
def checktracking_run (env : Env) (processed : List String) (rows : List Row) :
    Except String RunState :=
  rowsLoop env processed ⟨[], [], []⟩ rows

/-- The tracking id a row contributes to new_ids: present, non-empty, and
not in the pre-run ledger.  Note the membership test is only against the
ledger loaded before the loop, never against ids seen earlier in the run. -/
def rowNewId (processed : List String) (row : Row) : Option String :=
  match row.trackingId with
  | none => none
  | some tid =>
    if tid = "" then none
    else if tid ∈ processed then none
    else some tid

/-- All new ids of a feed, with multiplicity. -/
def newIds (processed : List String) (rows : List Row) : List String :=
  rows.filterMap (rowNewId processed)

/-! ### Claim C1 -/

/-- Order with no line items: its inventory loop is empty and
add_tracking_to_order finds no location for it. -/
def orderEmpty : Order := ⟨7001, []⟩

/-- Environment whose set_shipping_carrier PUT is rejected; every other call
succeeds. -/
def envCarrierDown : Env :=
  ⟨fun _ => Except.ok (some orderEmpty), fun _ => Except.ok (some 5),
    fun _ => Except.ok true, fun _ _ _ _ _ => Except.ok (),
    fun _ _ => Except.error "502 Server Error"⟩

/-- Order with one fulfillable manual line item at location 55. -/
def orderManual : Order := ⟨7002, [⟨11, 2, some "SKU1", some 901, some 2, some "manual", some 55⟩]⟩

/-- Environment whose fulfillment-creation POST is rejected; every other
call succeeds. -/
def envFulfillRejected : Env :=
  ⟨fun _ => Except.ok (some orderManual), fun _ => Except.ok (some 5),
    fun _ => Except.ok true, fun _ _ _ _ _ => Except.error "422 Unprocessable Entity",
    fun _ _ => Except.ok ()⟩

/-! ### Claim C2 -/

/-- Environment for runs that never find an order and fetch no inventory. -/
def envNullStore : Env :=
  ⟨fun _ => Except.ok none, fun _ => Except.ok none, fun _ => Except.ok true,
    fun _ _ _ _ _ => Except.ok (), fun _ _ => Except.ok ()⟩

/-- Predicate picking out fulfillment-creation calls. -/
def isFulfillCall : Effect → Bool
  | Effect.fulfillCall _ _ _ _ _ => true
  | _ => false

/-- Environment where the order resolves but has no line item carrying a
location id. -/
def envPackedNoLoc : Env :=
  ⟨fun _ => Except.ok (some orderEmpty), fun _ => Except.ok (some 5),
    fun _ => Except.ok true, fun _ _ _ _ _ => Except.ok (), fun _ _ => Except.ok ()⟩

/-- All-success environment resolving orders to orderManual. -/
def envHappy : Env :=
  ⟨fun _ => Except.ok (some orderManual), fun _ => Except.ok (some 5),
    fun _ => Except.ok true, fun _ _ _ _ _ => Except.ok (), fun _ _ => Except.ok ()⟩

/-- Combine split results across a concatenation boundary: the last chunk of
the left result is glued to the first chunk of the right result. -/
def glue : List (List Char) → List (List Char) → List (List Char)
  | [], ys => ys
  | x :: xs, ys =>
    match xs with
    | [] =>
      match ys with
      | [] => [x]
      | y :: ys' => (x ++ y) :: ys'
    | x' :: xs' => x :: glue (x' :: xs') ys

/-! ### Event Log Codec (bot.py 253-288, 290-328, 330-386, 1022-1055,
1057-1098, 1191-1223) -/

/-- One `Key: value` line of an encoded block. -/
def lineOf (kv : String × String) : List Char :=
  kv.1.toList ++ ':' :: ' ' :: kv.2.toList

/-- Body of an encoded block: one leading-newline line per field, exactly as
the Python f-strings concatenate them. -/
def mkBodyL : List (String × String) → List Char
  | [] => []
  | [kv] => '\n' :: lineOf kv
  | kv :: rest => '\n' :: (lineOf kv ++ mkBodyL rest)

/-- Python dict insertion: overwrite in place or append. -/
def insertPy (m : List (String × String)) (k v : String) : List (String × String) :=
  match m with
  | [] => [(k, v)]
  | kv :: rest => if kv.1 = k then (k, v) :: rest else kv :: insertPy rest k v

/-- Line loop of the decoder (bot.py 366-369): parse `Key: value` lines into
a dict, ignoring lines without a colon. -/
def parseLines (m : List (String × String)) : List (List Char) → List (String × String)
  | [] => m
  | line :: rest =>
    match splitColon line with
    | none => parseLines m rest
    | some (k, v) =>
      parseLines (insertPy m (String.mk (pystripL k)) (String.mk (pystripL v))) rest

/-- Section parse of the decoder (bot.py 364-369):
`section.strip().split("\n")` then the line loop. -/
def parseSection (chunk : List Char) : List (String × String) :=
  parseLines [] (splitOnL ['\n'] (pystripL chunk))

/-- The dashed separator the decoder splits on: `--- <MARKER> ---`. -/
def markerTok (markerL : List Char) : List Char :=
  "--- ".toList ++ markerL ++ " ---".toList

/-- Decoder for one marker (bot.py 360-371 and 373-384): guard on the bare
marker being in the note, split on the dashed separator, drop the prefix,
parse each section, and keep the non-empty entries. -/
def decodeEventsL (markerL noteL : List Char) : List (List (String × String)) :=
  if occursIn markerL noteL then
    (((splitOnL (markerTok markerL) noteL).drop 1).map parseSection).filter
      (fun e => !e.isEmpty)
  else []

/-- String-level decoder. -/
def decodeEvents (marker note : String) : List (List (String × String)) :=
  decodeEventsL marker.toList note.toList

/-- The five delivery-event variants the note field records, each carrying
its named string fields with the formatted timestamp last. -/
inductive DeliveryEvent where
  | reschedule (newDate reason partner rescheduledOn : String)
  | partnerUpdate (newPartner updatedOn : String)
  | hold (reason heldOn : String)
  | scheduled (date time scheduledOn : String)
  | notification (message sentOn : String)
  deriving DecidableEq, Repr

/-- The block each event appends to the note, transcribing the Python
f-strings verbatim (the timestamp argument abstracts
`time.strftime`/`datetime.now()` at the moment of the call). -/
def encodeEvent : DeliveryEvent → String
  | DeliveryEvent.reschedule d r p ts =>
    "\n--- RESCHEDULE INFO ---\nNew Delivery Date: " ++ d ++ "\nReason: " ++ r ++
      "\nDelivery Partner: " ++ p ++ "\nRescheduled on: " ++ ts
  | DeliveryEvent.partnerUpdate p ts =>
    "\n--- DELIVERY PARTNER UPDATE ---\nNew Partner: " ++ p ++ "\nUpdated on: " ++ ts
  | DeliveryEvent.hold r ts =>
    "\n--- ORDER ON HOLD ---\nReason: " ++ r ++ "\nHeld on: " ++ ts
  | DeliveryEvent.scheduled d t ts =>
    "\n--- DELIVERY SCHEDULED ---\nDate: " ++ d ++ "\nTime: " ++ t ++
      "\nScheduled on: " ++ ts
  | DeliveryEvent.notification m ts =>
    "\n--- CUSTOMER NOTIFICATION ---\nMessage: " ++ m ++ "\nSent on: " ++ ts

/-- The bare marker of each variant. -/
def markerOf : DeliveryEvent → String
  | DeliveryEvent.reschedule _ _ _ _ => "RESCHEDULE INFO"
  | DeliveryEvent.partnerUpdate _ _ => "DELIVERY PARTNER UPDATE"
  | DeliveryEvent.hold _ _ => "ORDER ON HOLD"
  | DeliveryEvent.scheduled _ _ _ => "DELIVERY SCHEDULED"
  | DeliveryEvent.notification _ _ => "CUSTOMER NOTIFICATION"

/-- The key/value fields of each variant, in block order. -/
def eventFields : DeliveryEvent → List (String × String)
  | DeliveryEvent.reschedule d r p ts =>
    [("New Delivery Date", d), ("Reason", r), ("Delivery Partner", p), ("Rescheduled on", ts)]
  | DeliveryEvent.partnerUpdate p ts => [("New Partner", p), ("Updated on", ts)]
  | DeliveryEvent.hold r ts => [("Reason", r), ("Held on", ts)]
  | DeliveryEvent.scheduled d t ts => [("Date", d), ("Time", t), ("Scheduled on", ts)]
  | DeliveryEvent.notification m ts => [("Message", m), ("Sent on", ts)]

/-- The timestamp (last) field of each variant. -/
def tsOf : DeliveryEvent → String
  | DeliveryEvent.reschedule _ _ _ ts => ts
  | DeliveryEvent.partnerUpdate _ ts => ts
  | DeliveryEvent.hold _ ts => ts
  | DeliveryEvent.scheduled _ _ ts => ts
  | DeliveryEvent.notification _ ts => ts

/-- Append semantics of every note writer:
`updated_note = note + block if note else block`. -/
def appendNote (note block : String) : String :=
  if note = "" then block else note ++ block

/-- A field value that survives the decoder's line and strip handling:
no newline, and no leading/trailing whitespace. -/
def CleanField (s : String) : Prop :=
  '\n' ∉ s.toList ∧ pystripL s.toList = s.toList

/-- A well-formed event: clean field values, a non-empty timestamp (the code
always formats one), and a body free of the dashed separator. -/
def CleanEvent (e : DeliveryEvent) : Prop :=
  (∀ kv ∈ eventFields e, CleanField kv.2)
  ∧ tsOf e ≠ ""
  ∧ occursIn (markerTok (markerOf e).toList) (mkBodyL (eventFields e)) = false

/-- Map a function over the last chunk only. -/
def mapLast (f : List Char → List Char) : List (List Char) → List (List Char)
  | [] => []
  | x :: xs =>
    match xs with
    | [] => [f x]
    | x' :: xs' => x :: mapLast f (x' :: xs')

instance (e : DeliveryEvent) : Decidable (CleanEvent e) := by
  unfold CleanEvent CleanField
  infer_instance

/-- Shape of a block key accepted verbatim by the decoder. -/
def KeyClean (k : String) : Prop :=
  k.toList ≠ [] ∧ ':' ∉ k.toList ∧ '\n' ∉ k.toList ∧ pystripL k.toList = k.toList

instance (k : String) : Decidable (KeyClean k) := by
  unfold KeyClean
  infer_instance

/-- Sample event for the C3 witness. -/
def eventW : DeliveryEvent :=
  DeliveryEvent.reschedule "2025-01-15" "Weather delay" "India Post Domestic"
    "2025-01-10 10:00:00"

/-! ### Shipping-line title surgery (bot.py 296-306) -/

/-- The literal substring update_delivery_partner searches and splits on. -/
def rtok : List Char := "Rescheduled to".toList

/-- Title rewrite of update_delivery_partner (bot.py 298-304):
`current_title.split("Rescheduled to")[1].strip()` spliced after the new
partner name when the substring is present, the bare partner name
otherwise. -/
def updatePartnerTitle (newPartner title : String) : String :=
  if occursIn rtok title.toList then
    newPartner ++ " - Rescheduled to " ++
      String.mk (pystripL ((splitOnL rtok title.toList).getD 1 []))
  else newPartner

/-- shipping_lines handling of update_delivery_partner (bot.py 296-306):
rewrite the first line's title, keep the rest, or create a single line. -/
def updateDeliveryPartnerLines (newPartner : String) (lines : List String) : List String :=
  match lines with
  | [] => [newPartner]
  | t :: rest => updatePartnerTitle newPartner t :: rest

/-- No proper non-empty prefix of `tok` is also a suffix of `tok`; such a
separator can never overlap itself across a concatenation boundary. -/
def borderFree (tok : List Char) : Prop :=
  ∀ k : Nat, k < tok.length → 0 < k → tok.take k ≠ tok.drop (tok.length - k)

instance (tok : List Char) : Decidable (borderFree tok) := by
  unfold borderFree
  infer_instance

theorem rangesHit_iff (p : Int) (rs : List (Int × Int)) :
    rangesHit p rs = true ↔ ∃ lohi ∈ rs, lohi.1 ≤ p ∧ p ≤ lohi.2 := by
  induction rs with
  | nil => simp [rangesHit]
  | cons hd rest ih =>
    obtain ⟨lo, hi⟩ := hd
    simp [rangesHit, ih, Bool.or_eq_true, decide_eq_true_eq]

theorem zoneScan_of_not_hit (p : Int) (zones : List (String × List (Int × Int) × String))
    (h : ∀ zrd ∈ zones, ∀ lohi ∈ zrd.2.1, ¬(lohi.1 ≤ p ∧ p ≤ lohi.2)) :
    zoneScan p zones = ("Not Available", "N/A") := by
  induction zones with
  | nil => rfl
  | cons hd rest ih =>
    obtain ⟨z, ranges, dt⟩ := hd
    have hmiss : rangesHit p ranges = false := by
      rw [Bool.eq_false_iff]
      intro hc
      obtain ⟨lohi, hmem, hb⟩ := (rangesHit_iff p ranges).mp hc
      exact h (z, ranges, dt) (List.mem_cons_self _ _) lohi hmem hb
    simp only [zoneScan, hmiss, Bool.false_eq_true, if_false]
    exact ih (fun zrd hz => h zrd (List.mem_cons_of_mem _ hz))

theorem zoneScan_cases (p : Int) (zones : List (String × List (Int × Int) × String)) :
    zoneScan p zones = ("Not Available", "N/A") ∨
      ∃ zrd ∈ zones, zoneScan p zones = (zrd.1, zrd.2.2) := by
  induction zones with
  | nil => exact Or.inl rfl
  | cons hd rest ih =>
    obtain ⟨z, ranges, dt⟩ := hd
    by_cases hhit : rangesHit p ranges
    · exact Or.inr ⟨(z, ranges, dt), List.mem_cons_self _ _, by simp [zoneScan, hhit]⟩
    · simp only [zoneScan, hhit, Bool.false_eq_true, if_false]
      rcases ih with h | ⟨zrd, hz, hval⟩
      · exact Or.inl h
      · exact Or.inr ⟨zrd, List.mem_cons_of_mem _ hz, hval⟩

/-- C6: get_delivery_zone classifies pincode 110000 as "Local" (the Local
range's upper bound is inclusive), classifies 999999 as "Standard", and
classifies any non-numeric pincode string as "Invalid". -/
theorem c6_zone_lookup :
    get_delivery_zone "110000" = ("Local", "1-2 days")
    ∧ get_delivery_zone "999999" = ("Standard", "3-5 days")
    ∧ ∀ s : String, pyParseInt s = none → get_delivery_zone s = ("Invalid", "N/A") := by
  refine ⟨rfl, rfl, fun s h => ?_⟩
  simp [get_delivery_zone, h]

theorem c6_zone_lookup_witness :
    pyParseInt "PIN-CODE" = none ∧ get_delivery_zone "PIN-CODE" = ("Invalid", "N/A") :=
  ⟨rfl, c6_zone_lookup.2.2 "PIN-CODE" rfl⟩

/-- C9: get_delivery_zone is total by construction; a string that does not
parse as an integer yields ("Invalid", "N/A"), an integer pincode lying in no
zone's ranges yields the spec-unmentioned fallback ("Not Available", "N/A"),
and every result is one of these two fallbacks or a (zone, deliveryTime) pair
taken from the zone table. -/
theorem c9_zone_total_fallback (s : String) :
    (pyParseInt s = none → get_delivery_zone s = ("Invalid", "N/A"))
    ∧ (∀ p : Int, pyParseInt s = some p → ¬inSomeZone p →
        get_delivery_zone s = ("Not Available", "N/A"))
    ∧ (get_delivery_zone s = ("Invalid", "N/A")
        ∨ get_delivery_zone s = ("Not Available", "N/A")
        ∨ ∃ zrd ∈ DELIVERY_ZONES, get_delivery_zone s = (zrd.1, zrd.2.2)) := by
  refine ⟨fun h => by simp [get_delivery_zone, h], fun p hp hno => ?_, ?_⟩
  · simp only [get_delivery_zone, hp]
    apply zoneScan_of_not_hit
    intro zrd hz lohi hl hb
    exact hno ⟨zrd, hz, lohi, hl, hb⟩
  · cases hp : pyParseInt s with
    | none => exact Or.inl (by simp [get_delivery_zone, hp])
    | some p =>
      have := zoneScan_cases p DELIVERY_ZONES
      simp only [get_delivery_zone, hp]
      rcases this with h | ⟨zrd, hz, hval⟩
      · exact Or.inr (Or.inl h)
      · exact Or.inr (Or.inr ⟨zrd, hz, hval⟩)

theorem c9_zone_total_fallback_witness :
    pyParseInt "99999" = some 99999 ∧ ¬inSomeZone 99999
    ∧ get_delivery_zone "99999" = ("Not Available", "N/A") :=
  ⟨rfl, by decide, (c9_zone_total_fallback "99999").2.1 99999 rfl (by decide)⟩

/-! ### Alert Engine lemmas -/

/-- C7: an entry {sku, current, threshold} is returned by
check_low_stock_alerts iff (sku, threshold) is in the alert map, the
inventory fetch for sku returns current, and current <= threshold.  In
particular current = threshold is included, current = threshold + 1 is
excluded, and a SKU whose fetch yields no inventory is silently omitted
(the function has no error output at all). -/
theorem c7_low_stock_membership (alerts : List (String × Int)) (inv : String → Option Int)
    (sku : String) (c t : Int) :
    (⟨sku, c, t⟩ : LowStockItem) ∈ check_low_stock_alerts alerts inv ↔
      ((sku, t) ∈ alerts ∧ inv sku = some c ∧ c ≤ t) := by
  induction alerts with
  | nil => simp [check_low_stock_alerts]
  | cons hd rest ih =>
    obtain ⟨s₀, t₀⟩ := hd
    simp only [check_low_stock_alerts]
    cases hinv : inv s₀ with
    | none =>
      simp only [List.mem_cons, ih, Prod.mk.injEq]
      constructor
      · rintro ⟨hmem, hsku, hle⟩
        exact ⟨Or.inr hmem, hsku, hle⟩
      · rintro ⟨⟨rfl, rfl⟩ | hmem', hsku, hle⟩
        · rw [hinv] at hsku
          cases hsku
        · exact ⟨hmem', hsku, hle⟩
    | some c₀ =>
      by_cases hle₀ : c₀ ≤ t₀
      · simp only [if_pos hle₀, List.mem_cons, ih, Prod.mk.injEq, LowStockItem.mk.injEq]
        constructor
        · rintro (⟨rfl, rfl, rfl⟩ | ⟨hmem, hsku, hle⟩)
          · exact ⟨Or.inl ⟨rfl, rfl⟩, hinv, hle₀⟩
          · exact ⟨Or.inr hmem, hsku, hle⟩
        · rintro ⟨⟨rfl, rfl⟩ | hmem', hsku, hle⟩
          · rw [hinv, Option.some.injEq] at hsku
            exact Or.inl ⟨rfl, hsku.symm, rfl⟩
          · exact Or.inr ⟨hmem', hsku, hle⟩
      · simp only [if_neg hle₀, List.mem_cons, ih, Prod.mk.injEq]
        constructor
        · rintro ⟨hmem, hsku, hle⟩
          exact ⟨Or.inr hmem, hsku, hle⟩
        · rintro ⟨⟨rfl, rfl⟩ | hmem', hsku, hle⟩
          · rw [hinv, Option.some.injEq] at hsku
            exact absurd (hsku ▸ hle) hle₀
          · exact ⟨hmem', hsku, hle⟩

theorem c7_low_stock_membership_witness :
    (⟨"SKU1", 5, 5⟩ : LowStockItem) ∈
      check_low_stock_alerts [("SKU1", 5), ("SKU2", 5), ("SKU3", 5)]
        (fun s => if s = "SKU1" then some 5 else if s = "SKU2" then some 6 else none) :=
  (c7_low_stock_membership [("SKU1", 5), ("SKU2", 5), ("SKU3", 5)]
    (fun s => if s = "SKU1" then some 5 else if s = "SKU2" then some 6 else none)
    "SKU1" 5 5).mpr ⟨by decide, rfl, by decide⟩

/-! ### Support ticket lemmas -/

theorem updMap_keys (tickets : List (String × Ticket)) (ticketId status now : String) :
    (tickets.map (fun kv =>
        if kv.1 = ticketId then
          (kv.1, { kv.2 with status := status, updatedAt := now })
        else kv)).map Prod.fst = tickets.map Prod.fst := by
  induction tickets with
  | nil => rfl
  | cons hd rest ih =>
    by_cases hk : hd.1 = ticketId <;> simp [hk, ih]

theorem updMap_lookup_other (tickets : List (String × Ticket))
    (ticketId status now k : String) (hk : k ≠ ticketId) :
    lookupKey k (tickets.map (fun kv =>
        if kv.1 = ticketId then
          (kv.1, { kv.2 with status := status, updatedAt := now })
        else kv)) = lookupKey k tickets := by
  induction tickets with
  | nil => rfl
  | cons hd rest ih =>
    have hne : ticketId ≠ k := fun hc => hk hc.symm
    by_cases hh : hd.1 = ticketId
    · simp [lookupKey, hh, hne, ih]
    · by_cases hke : hd.1 = k
      · simp [lookupKey, hh, hke, hk, ih]
      · simp [lookupKey, hh, hke, ih]

theorem updMap_lookup_self (tickets : List (String × Ticket))
    (ticketId status now : String) (tk : Ticket)
    (htk : lookupKey ticketId tickets = some tk) :
    lookupKey ticketId (tickets.map (fun kv =>
        if kv.1 = ticketId then
          (kv.1, { kv.2 with status := status, updatedAt := now })
        else kv)) = some { tk with status := status, updatedAt := now } := by
  induction tickets with
  | nil => cases htk
  | cons hd rest ih =>
    by_cases hh : hd.1 = ticketId
    · rw [lookupKey, if_pos hh] at htk
      rw [Option.some.injEq] at htk
      simp [lookupKey, hh, htk]
    · rw [lookupKey, if_neg hh] at htk
      simp [lookupKey, hh, ih htk]

/-- C10: update_ticket_status with an absent ticket id returns False and does
not write the store file; with a present id it returns True, writes the file,
keeps the key set, maps the targeted ticket to a copy with only status and
updated_at changed, and leaves the binding of every other ticket id
untouched. -/
theorem c10_ticket_update_atomic (tickets : List (String × Ticket))
    (ticketId status now : String) :
    (ticketId ∉ tickets.map Prod.fst →
      update_ticket_status tickets ticketId status now = (false, tickets, false))
    ∧ (ticketId ∈ tickets.map Prod.fst →
        (update_ticket_status tickets ticketId status now).1 = true
        ∧ (update_ticket_status tickets ticketId status now).2.2 = true
        ∧ ((update_ticket_status tickets ticketId status now).2.1.map Prod.fst
            = tickets.map Prod.fst)
        ∧ (∀ k : String, k ≠ ticketId →
            lookupKey k (update_ticket_status tickets ticketId status now).2.1
              = lookupKey k tickets)
        ∧ (∀ tk : Ticket, lookupKey ticketId tickets = some tk →
            lookupKey ticketId (update_ticket_status tickets ticketId status now).2.1
              = some { tk with status := status, updatedAt := now })) := by
  constructor
  · intro habs
    simp [update_ticket_status, habs]
  · intro hmem
    simp only [update_ticket_status, if_pos hmem]
    exact ⟨trivial, trivial, updMap_keys tickets ticketId status now,
      fun k hk => updMap_lookup_other tickets ticketId status now k hk,
      fun tk htk => updMap_lookup_self tickets ticketId status now tk htk⟩

theorem c10_ticket_update_atomic_witness :
    lookupKey "TICKET-0002"
        (update_ticket_status [("TICKET-0001", ticket1), ("TICKET-0002", ticket2)]
          "TICKET-0001" "Resolved" "2025-07-24T00:00:00").2.1
      = lookupKey "TICKET-0002" [("TICKET-0001", ticket1), ("TICKET-0002", ticket2)] :=
  ((c10_ticket_update_atomic [("TICKET-0001", ticket1), ("TICKET-0002", ticket2)]
      "TICKET-0001" "Resolved" "2025-07-24T00:00:00").2 (by decide)).2.2.2.1
    "TICKET-0002" (by decide)

@[simp] theorem addAction_actions (st : RunState) (a : String) :
    (addAction st a).actions = st.actions ++ [a] := rfl

@[simp] theorem addAction_appended (st : RunState) (a : String) :
    (addAction st a).appended = st.appended := rfl

@[simp] theorem addAction_effects (st : RunState) (a : String) :
    (addAction st a).effects = st.effects := rfl

@[simp] theorem addEffect_actions (st : RunState) (e : Effect) :
    (addEffect st e).actions = st.actions := rfl

@[simp] theorem addEffect_appended (st : RunState) (e : Effect) :
    (addEffect st e).appended = st.appended := rfl

@[simp] theorem addEffect_effects (st : RunState) (e : Effect) :
    (addEffect st e).effects = st.effects ++ [e] := rfl

/-! ### Which environment calls can abort the pass -/

theorem processItem_ok (env : Env) (oname : String)
    (hinv : ∀ s, ∃ v, env.inventory s = Except.ok v)
    (hmark : ∀ v, ∃ b, env.markOOS v = Except.ok b)
    (st : RunState) (item : LineItem) :
    ∃ st', processItem env oname st item = Except.ok st' ∧ st'.appended = st.appended := by
  obtain ⟨iid, iqty, isku, ivar, ifq, ifs, iloc⟩ := item
  cases isku with
  | none =>
    exact ⟨addAction st ("Order " ++ oname ++ ": Missing SKU or variant ID."), rfl, by simp⟩
  | some sku =>
    by_cases hs : sku = ""
    · exact ⟨addAction st ("Order " ++ oname ++ ": Missing SKU or variant ID."),
        by simp [processItem, hs], by simp⟩
    · cases ivar with
      | none =>
        exact ⟨addAction st ("Order " ++ oname ++ ": Missing SKU or variant ID."),
          by simp [processItem, hs], by simp⟩
      | some vid =>
        by_cases hv : vid = 0
        · exact ⟨addAction st ("Order " ++ oname ++ ": Missing SKU or variant ID."),
            by simp [processItem, hs, hv], by simp⟩
        · obtain ⟨v, hiv⟩ := hinv sku
          cases v with
          | none =>
            exact ⟨addAction (addEffect st (Effect.invQuery sku))
                ("Order " ++ oname ++ " SKU " ++ sku ++ ": Could not fetch inventory."),
              by simp [processItem, hs, hv, hiv], by simp⟩
          | some inv =>
            by_cases hz : inv = 0
            · obtain ⟨b, hb⟩ := hmark vid
              exact ⟨addAction (addEffect (addEffect st (Effect.invQuery sku))
                    (Effect.markOOS vid))
                  ("Order " ++ oname ++ " SKU " ++ sku ++ ": Marked as out of stock."),
                by simp [processItem, hs, hv, hiv, hz, hb], by simp⟩
            · exact ⟨addAction (addEffect st (Effect.invQuery sku))
                  ("Order " ++ oname ++ " SKU " ++ sku ++ ": In stock (" ++ toString inv ++ ")."),
                by simp [processItem, hs, hv, hiv, hz], by simp⟩

theorem itemsLoop_ok (env : Env) (oname : String)
    (hinv : ∀ s, ∃ v, env.inventory s = Except.ok v)
    (hmark : ∀ v, ∃ b, env.markOOS v = Except.ok b)
    (items : List LineItem) :
    ∀ st : RunState, ∃ st', itemsLoop env oname st items = Except.ok st'
      ∧ st'.appended = st.appended := by
  induction items with
  | nil => exact fun st => ⟨st, rfl, rfl⟩
  | cons item rest ih =>
    intro st
    obtain ⟨st1, hst1, happ1⟩ := processItem_ok env oname hinv hmark st item
    obtain ⟨st2, hst2, happ2⟩ := ih st1
    exact ⟨st2, by simp [itemsLoop, hst1, hst2], by rw [happ2, happ1]⟩

theorem processRow_ok (env : Env) (processed : List String)
    (hl : ∀ n, ∃ v, env.lookup n = Except.ok v)
    (hinv : ∀ s, ∃ v, env.inventory s = Except.ok v)
    (hmark : ∀ v, ∃ b, env.markOOS v = Except.ok b)
    (hput : ∀ o c, ∃ u, env.putCarrier o c = Except.ok u)
    (st : RunState) (row : Row) :
    ∃ st', processRow env processed st row = Except.ok st'
      ∧ st'.appended = st.appended ++ (rowNewId processed row).toList := by
  obtain ⟨tid?, oname?, status?⟩ := row
  cases tid? with
  | none => exact ⟨st, rfl, by simp [rowNewId]⟩
  | some tid =>
    by_cases h2 : tid = ""
    · exact ⟨st, by simp [processRow, h2], by simp [rowNewId, h2]⟩
    · by_cases h3 : tid ∈ processed
      · exact ⟨st, by simp [processRow, h2, h3], by simp [rowNewId, h2, h3]⟩
      · cases oname? with
        | none =>
          exact ⟨addAction { st with appended := st.appended ++ [tid] }
              ("Tracking ID " ++ tid ++ ": No order ID found."),
            by simp [processRow, h2, h3], by simp [rowNewId, h2, h3]⟩
        | some oname =>
          by_cases h5 : oname = ""
          · exact ⟨addAction { st with appended := st.appended ++ [tid] }
                ("Tracking ID " ++ tid ++ ": No order ID found."),
              by simp [processRow, h2, h3, h5], by simp [rowNewId, h2, h3]⟩
          · obtain ⟨v, hv⟩ := hl (lstripHash oname)
            cases v with
            | none =>
              exact ⟨addAction (addEffect { st with appended := st.appended ++ [tid] }
                    (Effect.lookupOrder (lstripHash oname)))
                  ("Order " ++ oname ++ " not found for tracking ID " ++ tid ++ "."),
                by simp [processRow, h2, h3, h5, hv], by simp [rowNewId, h2, h3]⟩
            | some order =>
              by_cases h7 : statusPacked status?
              · rcases haddr : addTrackingToOrder env order tid with ⟨res, effs⟩
                cases res with
                | ok u =>
                  exact ⟨addAction
                      { addEffect { st with appended := st.appended ++ [tid] }
                          (Effect.lookupOrder (lstripHash oname)) with
                        effects := (addEffect { st with appended := st.appended ++ [tid] }
                          (Effect.lookupOrder (lstripHash oname))).effects ++ effs }
                      ("Order " ++ oname ++ ": Tracking ID " ++ tid ++
                        " and carrier set to India Post Domestic."),
                    by simp [processRow, h2, h3, h5, hv, h7, haddr],
                    by simp [rowNewId, h2, h3]⟩
                | error e =>
                  exact ⟨addAction
                      { addEffect { st with appended := st.appended ++ [tid] }
                          (Effect.lookupOrder (lstripHash oname)) with
                        effects := (addEffect { st with appended := st.appended ++ [tid] }
                          (Effect.lookupOrder (lstripHash oname))).effects ++ effs }
                      ("Order " ++ oname ++ ": Failed to add tracking/carrier: " ++ e),
                    by simp [processRow, h2, h3, h5, hv, h7, haddr],
                    by simp [rowNewId, h2, h3]⟩
              · obtain ⟨st3, hloop, happ⟩ := itemsLoop_ok env oname hinv hmark order.lineItems
                  (addEffect { st with appended := st.appended ++ [tid] }
                    (Effect.lookupOrder (lstripHash oname)))
                obtain ⟨u, hc⟩ := hput order.id "India Post Domestic"
                refine ⟨addAction (addEffect st3 (Effect.setCarrier order.id "India Post Domestic"))
                    ("Order " ++ oname ++ ": Shipping carrier set to India Post Domestic."),
                  by simp [processRow, h2, h3, h5, hv, h7, hloop, hc], ?_⟩
                simp only [addAction_appended, addEffect_appended, happ]
                simp [rowNewId, h2, h3]

theorem newIds_cons (processed : List String) (row : Row) (rest : List Row) :
    newIds processed (row :: rest)
      = (rowNewId processed row).toList ++ newIds processed rest := by
  cases h : rowNewId processed row <;> simp [newIds, h]

theorem rowsLoop_ok (env : Env) (processed : List String)
    (hl : ∀ n, ∃ v, env.lookup n = Except.ok v)
    (hinv : ∀ s, ∃ v, env.inventory s = Except.ok v)
    (hmark : ∀ v, ∃ b, env.markOOS v = Except.ok b)
    (hput : ∀ o c, ∃ u, env.putCarrier o c = Except.ok u)
    (rows : List Row) :
    ∀ st : RunState, ∃ st', rowsLoop env processed st rows = Except.ok st'
      ∧ st'.appended = st.appended ++ newIds processed rows := by
  induction rows with
  | nil => exact fun st => ⟨st, rfl, by simp [newIds]⟩
  | cons row rest ih =>
    intro st
    obtain ⟨st1, hst1, happ1⟩ := processRow_ok env processed hl hinv hmark hput st row
    obtain ⟨st2, hst2, happ2⟩ := ih st1
    refine ⟨st2, by simp [rowsLoop, hst1, hst2], ?_⟩
    rw [happ2, happ1, newIds_cons, List.append_assoc]

/-! ### Result accounting valid for every environment -/

theorem processItem_appended (env : Env) (oname : String) (st : RunState)
    (item : LineItem) (st' : RunState)
    (h : processItem env oname st item = Except.ok st') : st'.appended = st.appended := by
  unfold processItem at h
  repeat' split at h
  all_goals
    first
    | exact Except.noConfusion h
    | (injection h with h'; subst h'; simp)

theorem itemsLoop_appended (env : Env) (oname : String) :
    ∀ (items : List LineItem) (st st' : RunState),
      itemsLoop env oname st items = Except.ok st' → st'.appended = st.appended := by
  intro items
  induction items with
  | nil =>
    intro st st' h
    injection h with h'
    subst h'
    rfl
  | cons item rest ih =>
    intro st st' h
    unfold itemsLoop at h
    split at h
    · exact Except.noConfusion h
    · next st1 heq => exact (ih st1 st' h).trans (processItem_appended env oname st item st1 heq)

theorem processRow_appended (env : Env) (processed : List String) (st : RunState)
    (row : Row) (st' : RunState) (h : processRow env processed st row = Except.ok st') :
    st'.appended = st.appended ++ (rowNewId processed row).toList := by
  obtain ⟨tid?, oname?, status?⟩ := row
  cases tid? with
  | none =>
    simp only [processRow] at h
    injection h with h'
    subst h'
    simp [rowNewId]
  | some tid =>
    by_cases h2 : tid = ""
    · simp only [processRow, h2, if_pos] at h
      injection h with h'
      subst h'
      simp [rowNewId, h2]
    · by_cases h3 : tid ∈ processed
      · simp [processRow, h2, h3] at h
        subst h
        simp [rowNewId, h2, h3]
      · cases oname? with
        | none =>
          simp [processRow, h2, h3] at h
          subst h
          simp [rowNewId, h2, h3]
        | some oname =>
          by_cases h5 : oname = ""
          · simp [processRow, h2, h3, h5] at h
            subst h
            simp [rowNewId, h2, h3]
          · cases hv : env.lookup (lstripHash oname) with
            | error e => simp [processRow, h2, h3, h5, hv] at h
            | ok v =>
              cases v with
              | none =>
                simp [processRow, h2, h3, h5, hv] at h
                subst h
                simp [rowNewId, h2, h3]
              | some order =>
                by_cases h7 : statusPacked status?
                · rcases haddr : addTrackingToOrder env order tid with ⟨res, effs⟩
                  cases res with
                  | ok u =>
                    simp [processRow, h2, h3, h5, hv, h7, haddr] at h
                    subst h
                    simp [rowNewId, h2, h3]
                  | error e =>
                    simp [processRow, h2, h3, h5, hv, h7, haddr] at h
                    subst h
                    simp [rowNewId, h2, h3]
                · cases hloop : itemsLoop env oname
                    (addEffect { st with appended := st.appended ++ [tid] }
                      (Effect.lookupOrder (lstripHash oname))) order.lineItems with
                  | error e => simp [processRow, h2, h3, h5, hv, h7, hloop] at h
                  | ok st3 =>
                    cases hcar : env.putCarrier order.id "India Post Domestic" with
                    | error e => simp [processRow, h2, h3, h5, hv, h7, hloop, hcar] at h
                    | ok u =>
                      simp [processRow, h2, h3, h5, hv, h7, hloop, hcar] at h
                      subst h
                      have := itemsLoop_appended env oname order.lineItems _ st3 hloop
                      simp only [addAction_appended, addEffect_appended, this]
                      simp [rowNewId, h2, h3]

theorem rowsLoop_appended (env : Env) (processed : List String) :
    ∀ (rows : List Row) (st st' : RunState),
      rowsLoop env processed st rows = Except.ok st' →
        st'.appended = st.appended ++ newIds processed rows := by
  intro rows
  induction rows with
  | nil =>
    intro st st' h
    injection h with h'
    subst h'
    simp [newIds]
  | cons row rest ih =>
    intro st st' h
    unfold rowsLoop at h
    split at h
    · exact Except.noConfusion h
    · next st1 heq =>
      rw [ih st1 st' h, processRow_appended env processed st row st1 heq, newIds_cons,
        List.append_assoc]

theorem rowNewId_some (processed : List String) (r : Row) (x : String) :
    rowNewId processed r = some x ↔
      (r.trackingId = some x ∧ x ≠ "" ∧ x ∉ processed) := by
  cases hrt : r.trackingId with
  | none => simp [rowNewId, hrt]
  | some tid =>
    by_cases h2 : tid = ""
    · subst h2
      simp only [rowNewId, hrt, if_pos]
      constructor
      · intro hc; cases hc
      · rintro ⟨hsome, hne, _⟩
        injection hsome with h'
        exact absurd h'.symm hne
    · by_cases h3 : tid ∈ processed
      · simp only [rowNewId, hrt, h2, if_neg, h3, if_pos]
        constructor
        · intro hc
          simp at hc
        · rintro ⟨hsome, _, hnp⟩
          injection hsome with h'
          exact absurd (h' ▸ h3) hnp
      · simp only [rowNewId, hrt, h2, h3, if_neg]
        constructor
        · intro hc
          injection hc with h'
          subst h'
          exact ⟨rfl, h2, h3⟩
        · rintro ⟨hsome, _, _⟩
          injection hsome with h'
          rw [h']
          simp

/-- C1 counterexample: with two fresh feed rows, a raised
set_shipping_carrier failure on the first record escapes the per-record
handling — the run ends in the outer exception handler (Except.error), the
second record is never processed and save_processed_ids is never reached, so
the ledger is not committed.  The claim asserts the pass would still process
subsequent records and commit the ledger. -/
theorem c1_counterexample :
    checktracking_run envCarrierDown []
      [⟨some "T1", some "#1001", none⟩, ⟨some "T2", some "#1002", none⟩]
      = Except.error "502 Server Error" := rfl

/-- C1 amended: only the fulfillment-creation call of the PACKED branch is
caught at record granularity.  Whenever order lookup, inventory query,
out-of-stock marking and the shipping-carrier update do not raise, the pass
runs to completion — fulfillment-creation failures included — and commits to
the ledger exactly the new tracking ids of the feed. -/
theorem c1_failure_isolation_amended (env : Env) (processed : List String) (rows : List Row)
    (hl : ∀ n, ∃ v, env.lookup n = Except.ok v)
    (hinv : ∀ s, ∃ v, env.inventory s = Except.ok v)
    (hmark : ∀ v, ∃ b, env.markOOS v = Except.ok b)
    (hput : ∀ o c, ∃ u, env.putCarrier o c = Except.ok u) :
    ∃ res, checktracking_run env processed rows = Except.ok res
      ∧ res.appended = newIds processed rows := by
  obtain ⟨st', h, ha⟩ := rowsLoop_ok env processed hl hinv hmark hput rows ⟨[], [], []⟩
  exact ⟨st', h, by simpa using ha⟩

theorem c1_failure_isolation_amended_witness :
    ∃ res, checktracking_run envFulfillRejected []
        [⟨some "T1", some "#1001", some "PACKED"⟩, ⟨some "T2", none, none⟩]
        = Except.ok res
      ∧ res.appended = newIds []
          [⟨some "T1", some "#1001", some "PACKED"⟩, ⟨some "T2", none, none⟩] :=
  c1_failure_isolation_amended envFulfillRejected []
    [⟨some "T1", some "#1001", some "PACKED"⟩, ⟨some "T2", none, none⟩]
    (fun _ => ⟨some orderManual, rfl⟩) (fun _ => ⟨some 5, rfl⟩)
    (fun _ => ⟨true, rfl⟩) (fun _ _ => ⟨(), rfl⟩)

/-- C2 counterexample: the working set is only the ledger loaded before the
loop, so a feed carrying the same new tracking id in two rows processes it
twice (two outcome lines) and appends it to the ledger file twice — the
claim says the second row is dropped and the id processed at most once. -/
theorem c2_counterexample :
    checktracking_run envNullStore []
      [⟨some "T1", none, none⟩, ⟨some "T1", none, none⟩]
      = Except.ok ⟨["Tracking ID T1: No order ID found.",
          "Tracking ID T1: No order ID found."], ["T1", "T1"], []⟩ := rfl

/-- C2 amended: a row whose tracking id is already in the ledger loaded
before the run is dropped, but within-run duplicates are not: each occurrence
is processed again and appended to the ledger file again (`newIds` keeps
multiplicity).  The ledger read back as a set still equals the old set plus
exactly the distinct new tracking ids of the feed. -/
theorem c2_ledger_growth_amended (env : Env) (processed : List String) (rows : List Row)
    (res : RunState) (h : checktracking_run env processed rows = Except.ok res) :
    res.appended = newIds processed rows
    ∧ ∀ x : String, x ∈ processed ++ res.appended ↔
        (x ∈ processed ∨ ∃ r ∈ rows, r.trackingId = some x ∧ x ≠ "") := by
  have happ : res.appended = newIds processed rows := by
    simpa using rowsLoop_appended env processed rows ⟨[], [], []⟩ res h
  refine ⟨happ, fun x => ?_⟩
  rw [happ]
  constructor
  · intro hx
    rcases List.mem_append.mp hx with hx | hx
    · exact Or.inl hx
    · obtain ⟨r, hr, hsome⟩ := List.mem_filterMap.mp hx
      obtain ⟨hrt, hne, _⟩ := (rowNewId_some processed r x).mp hsome
      exact Or.inr ⟨r, hr, hrt, hne⟩
  · rintro (hx | ⟨r, hr, hrt, hne⟩)
    · exact List.mem_append.mpr (Or.inl hx)
    · by_cases hp : x ∈ processed
      · exact List.mem_append.mpr (Or.inl hp)
      · exact List.mem_append.mpr (Or.inr (List.mem_filterMap.mpr
          ⟨r, hr, (rowNewId_some processed r x).mpr ⟨hrt, hne, hp⟩⟩))

theorem c2_ledger_growth_amended_witness :
    (⟨["Tracking ID T1: No order ID found."], ["T1"], []⟩ : RunState).appended
      = newIds ["OLD"] [⟨some "T1", none, none⟩, ⟨some "OLD", none, none⟩] :=
  (c2_ledger_growth_amended envNullStore ["OLD"]
    [⟨some "T1", none, none⟩, ⟨some "OLD", none, none⟩]
    ⟨["Tracking ID T1: No order ID found."], ["T1"], []⟩ rfl).1

/-! ### Claim C4 -/

/-- C4 amended: a fresh record with PACKED status (case-insensitive, after
trimming) whose order resolves and whose order yields a truthy location id
makes exactly one fulfillment-creation call, carrying the record's tracking
id and the fixed carrier name, and triggers neither inventory checks nor the
shipping-carrier update; when no location resolves, the code raises before
the POST, so no fulfillment-creation call is made at all (see the
counterexample). -/
theorem c4_packed_fulfillment_amended (env : Env) (processed : List String)
    (st : RunState) (row : Row) (tid oname : String) (order : Order) (loc : Int)
    (h1 : row.trackingId = some tid) (h2 : tid ≠ "") (h3 : tid ∉ processed)
    (h4 : row.orderName = some oname) (h5 : oname ≠ "")
    (h6 : env.lookup (lstripHash oname) = Except.ok (some order))
    (h7 : statusPacked row.status = true)
    (h8 : resolveLocation order = some loc) (h9 : loc ≠ 0) :
    ∃ line, processRow env processed st row = Except.ok
      { actions := st.actions ++ [line]
      , appended := st.appended ++ [tid]
      , effects := st.effects ++ [Effect.lookupOrder (lstripHash oname),
          Effect.fulfillCall order.id tid "India Post Domestic" (payloadItems order) loc] } := by
  cases hpf : env.postFulfillment order.id tid "India Post Domestic" (payloadItems order) loc with
  | ok u =>
    refine ⟨"Order " ++ oname ++ ": Tracking ID " ++ tid ++
      " and carrier set to India Post Domestic.", ?_⟩
    simp [processRow, h1, h2, h3, h4, h5, h6, h7, addTrackingToOrder, h8, h9, hpf,
      addAction, addEffect]
  | error e =>
    refine ⟨"Order " ++ oname ++ ": Failed to add tracking/carrier: " ++ e, ?_⟩
    simp [processRow, h1, h2, h3, h4, h5, h6, h7, addTrackingToOrder, h8, h9, hpf,
      addAction, addEffect]

/-- C4 counterexample: a fresh PACKED record whose order resolves but yields
no valid location makes zero fulfillment-creation calls — the exception is
raised before the POST and caught as a per-record failure line — while the
claim requires exactly one call. -/
theorem c4_counterexample :
    checktracking_run envPackedNoLoc [] [⟨some "T1", some "#1001", some "PACKED"⟩]
      = Except.ok ⟨["Order #1001: Failed to add tracking/carrier: No valid location_id found for fulfillment."],
          ["T1"], [Effect.lookupOrder "1001"]⟩
    ∧ ([Effect.lookupOrder "1001"].filter isFulfillCall).length = 0 := ⟨rfl, rfl⟩

theorem c4_packed_fulfillment_amended_witness :
    ∃ line, processRow envHappy [] ⟨[], [], []⟩ ⟨some "T1", some "#1001", some " packed "⟩
      = Except.ok
        { actions := [] ++ [line]
        , appended := [] ++ ["T1"]
        , effects := [] ++ [Effect.lookupOrder (lstripHash "#1001"),
            Effect.fulfillCall orderManual.id "T1" "India Post Domestic"
              (payloadItems orderManual) 55] } :=
  c4_packed_fulfillment_amended envHappy [] ⟨[], [], []⟩
    ⟨some "T1", some "#1001", some " packed "⟩ "T1" "#1001" orderManual 55
    rfl (by decide) (by simp) rfl (by decide) rfl rfl rfl (by decide)

/-! ### Claim C5 -/

/-- C5: a fresh record with no truthy order-name cell yields exactly the
"No order ID found." action line, touches the Order Store in no way (no
effects), appends its tracking id to new_ids, and on any completed run over
a feed containing the row, the id is part of the final ledger commit. -/
theorem c5_missing_order_name (env : Env) (processed : List String) (st : RunState)
    (row : Row) (tid : String)
    (h1 : row.trackingId = some tid) (h2 : tid ≠ "") (h3 : tid ∉ processed)
    (h4 : strTruthy row.orderName = false) :
    processRow env processed st row = Except.ok
      { actions := st.actions ++ ["Tracking ID " ++ tid ++ ": No order ID found."]
      , appended := st.appended ++ [tid]
      , effects := st.effects }
    ∧ ∀ (rows : List Row) (res : RunState), row ∈ rows →
        checktracking_run env processed rows = Except.ok res → tid ∈ res.appended := by
  constructor
  · cases hon : row.orderName with
    | none => simp [processRow, h1, h2, h3, hon, addAction]
    | some s =>
      have hs : s = "" := by
        rw [hon] at h4
        simpa [strTruthy] using h4
      simp [processRow, h1, h2, h3, hon, hs, addAction]
  · intro rows res hmem hrun
    have happ : res.appended = newIds processed rows := by
      simpa using rowsLoop_appended env processed rows ⟨[], [], []⟩ res hrun
    rw [happ]
    exact List.mem_filterMap.mpr ⟨row, hmem,
      (rowNewId_some processed row tid).mpr ⟨h1, h2, h3⟩⟩

theorem c5_missing_order_name_witness :
    processRow envNullStore [] ⟨[], [], []⟩ ⟨some "T9", none, none⟩ = Except.ok
      { actions := [] ++ ["Tracking ID " ++ "T9" ++ ": No order ID found."]
      , appended := [] ++ ["T9"]
      , effects := [] } :=
  (c5_missing_order_name envNullStore [] ⟨[], [], []⟩ ⟨some "T9", none, none⟩ "T9"
    rfl (by decide) (by simp) rfl).1

/-! ### Prefix and substring test lemmas -/

theorem isPre_iff (p : List Char) : ∀ s, isPre p s = true ↔ ∃ r, s = p ++ r := by
  induction p with
  | nil => intro s; simp [isPre]
  | cons a p' ih =>
    intro s
    cases s with
    | nil => simp [isPre]
    | cons c cs =>
      simp only [isPre, Bool.and_eq_true, decide_eq_true_eq, ih cs, List.cons_append,
        List.cons.injEq]
      constructor
      · rintro ⟨rfl, r, rfl⟩
        exact ⟨r, rfl, rfl⟩
      · rintro ⟨r, rfl, rfl⟩
        exact ⟨rfl, r, rfl⟩

theorem occursIn_iff (pat : List Char) : ∀ s, occursIn pat s = true ↔
    ∃ a b, s = a ++ pat ++ b := by
  intro s
  induction s with
  | nil =>
    simp only [occursIn]
    rw [isPre_iff]
    constructor
    · rintro ⟨r, hr⟩
      exact ⟨[], r, by simpa using hr⟩
    · rintro ⟨a, b, hab⟩
      have ha : a = [] := by
        cases a with
        | nil => rfl
        | cons x xs => simp at hab
      subst ha
      exact ⟨b, by simpa using hab⟩
  | cons c cs ih =>
    simp only [occursIn, Bool.or_eq_true, ih]
    rw [isPre_iff]
    constructor
    · rintro (⟨r, hr⟩ | ⟨a, b, hab⟩)
      · exact ⟨[], r, by simpa using hr⟩
      · exact ⟨c :: a, b, by simp [hab]⟩
    · rintro ⟨a, b, hab⟩
      cases a with
      | nil => exact Or.inl ⟨b, by simpa using hab⟩
      | cons x xs =>
        simp only [List.cons_append, List.cons.injEq] at hab
        exact Or.inr ⟨xs, b, hab.2⟩

theorem isPre_length {p s : List Char} (h : isPre p s = true) : p.length ≤ s.length := by
  obtain ⟨r, rfl⟩ := (isPre_iff p s).mp h
  simp

theorem isPre_append {p u : List Char} (v : List Char) (h : isPre p u = true) :
    isPre p (u ++ v) = true := by
  obtain ⟨r, rfl⟩ := (isPre_iff p u).mp h
  exact (isPre_iff p _).mpr ⟨r ++ v, by simp⟩

theorem isPre_of_isPre_append {p u v : List Char} (h : isPre p (u ++ v) = true)
    (hlen : p.length ≤ u.length) : isPre p u = true := by
  obtain ⟨r, hr⟩ := (isPre_iff p (u ++ v)).mp h
  have h1 : u = (p ++ r).take u.length := by
    rw [← hr]
    simp
  rw [List.take_append_eq_append_take, List.take_of_length_le hlen] at h1
  exact (isPre_iff p u).mpr ⟨r.take (u.length - p.length), h1⟩

theorem mem_of_isPre_append_long {p u : List Char} {x : Char} {v : List Char}
    (h : isPre p (u ++ x :: v) = true) (hlen : u.length < p.length) : x ∈ p := by
  induction u generalizing p with
  | nil =>
    cases p with
    | nil => cases hlen
    | cons a p' =>
      simp only [List.nil_append, isPre, Bool.and_eq_true, decide_eq_true_eq] at h
      exact h.1 ▸ List.mem_cons_self _ _
  | cons d u' ih =>
    cases p with
    | nil => cases hlen
    | cons a p' =>
      simp only [List.cons_append, isPre, Bool.and_eq_true] at h
      exact List.mem_cons_of_mem _ (ih h.2 (by simpa using hlen))

/-! ### Split equations -/

theorem splitGo_mono (tok : List Char) :
    ∀ (n : Nat) (m : Nat) (s : List Char), s.length ≤ n → s.length ≤ m →
      splitGo tok n s = splitGo tok m s := by
  intro n
  induction n with
  | zero =>
    intro m s hn _
    have : s = [] := List.eq_nil_of_length_eq_zero (Nat.le_zero.mp hn)
    subst this
    cases m <;> rfl
  | succ n ih =>
    intro m s hn hm
    cases s with
    | nil => cases m <;> rfl
    | cons c s' =>
      cases m with
      | zero => exact absurd hm (by simp)
      | succ m' =>
        simp only [splitGo]
        by_cases he : tok.isEmpty
        · simp [he]
        · simp only [he, Bool.false_eq_true, if_false]
          by_cases hp : isPre tok (c :: s')
          · simp only [hp, if_true]
            have hlen : (s'.drop (tok.length - 1)).length ≤ n := by
              have := List.length_drop (tok.length - 1) s'
              have h2 : s'.length ≤ n := by simpa using hn
              omega
            have hlen2 : (s'.drop (tok.length - 1)).length ≤ m' := by
              have := List.length_drop (tok.length - 1) s'
              have h2 : s'.length ≤ m' := by simpa using hm
              omega
            rw [ih m' _ hlen hlen2]
          · simp only [hp, Bool.false_eq_true, if_false]
            rw [ih m' s' (by simpa using hn) (by simpa using hm)]

theorem splitOnL_nil (tok : List Char) : splitOnL tok [] = [[]] := rfl

theorem splitOnL_cons (tok : List Char) (htok : tok ≠ []) (c : Char) (s' : List Char) :
    splitOnL tok (c :: s') =
      if isPre tok (c :: s') then [] :: splitOnL tok (s'.drop (tok.length - 1))
      else onHead c (splitOnL tok s') := by
  have he : tok.isEmpty = false := by
    cases tok with
    | nil => exact absurd rfl htok
    | cons a t => rfl
  show splitGo tok (s'.length + 1) (c :: s') = _
  simp only [splitGo, he, Bool.false_eq_true, if_false]
  by_cases hp : isPre tok (c :: s')
  · simp only [hp, if_true]
    rw [splitGo_mono tok s'.length (s'.drop (tok.length - 1)).length _
      (by simp) (by simp)]
    rfl
  · simp only [hp, Bool.false_eq_true, if_false]
    rfl

theorem splitGo_ne_nil (tok : List Char) :
    ∀ (n : Nat) (s : List Char), splitGo tok n s ≠ [] := by
  intro n
  induction n with
  | zero => intro s; cases s <;> simp [splitGo]
  | succ n ih =>
    intro s
    cases s with
    | nil => simp [splitGo]
    | cons c s' =>
      simp only [splitGo]
      by_cases he : tok.isEmpty
      · simp [he]
      · simp only [he, Bool.false_eq_true, if_false]
        by_cases hp : isPre tok (c :: s')
        · simp [hp]
        · simp only [hp, Bool.false_eq_true, if_false]
          cases hs : splitGo tok n s' with
          | nil => exact absurd hs (ih s')
          | cons chunk rest => simp [onHead]

theorem splitOnL_ne_nil (tok s : List Char) : splitOnL tok s ≠ [] :=
  splitGo_ne_nil tok s.length s

theorem splitOnL_of_not_occurs (tok : List Char) (htok : tok ≠ []) :
    ∀ s, occursIn tok s = false → splitOnL tok s = [s] := by
  intro s
  induction s with
  | nil => intro _; rfl
  | cons c s' ih =>
    intro h
    simp only [occursIn, Bool.or_eq_false_iff] at h
    rw [splitOnL_cons tok htok, if_neg (by simp [h.1]), ih h.2]
    rfl

theorem glue_nil_chunk (ys : List (List Char)) (hys : ys ≠ []) :
    glue [[]] ys = ys := by
  cases ys with
  | nil => exact absurd rfl hys
  | cons y ys' => simp [glue]

theorem glue_cons_of_ne {xs : List (List Char)} (z : List Char)
    (ys : List (List Char)) (hxs : xs ≠ []) :
    glue (z :: xs) ys = z :: glue xs ys := by
  cases xs with
  | nil => exact absurd rfl hxs
  | cons x' xs' => rfl

theorem glue_onHead (c : Char) (xs ys : List (List Char)) (hxs : xs ≠ [])
    (hys : ys ≠ []) : onHead c (glue xs ys) = glue (onHead c xs) ys := by
  cases xs with
  | nil => exact absurd rfl hxs
  | cons x xs' =>
    cases xs' with
    | nil =>
      cases ys with
      | nil => exact absurd rfl hys
      | cons y ys' => simp [glue, onHead]
    | cons x' xs'' => simp [glue, onHead]

theorem splitOnL_append_nl (tok : List Char) (htok : tok ≠ []) (hnl : '\n' ∉ tok) :
    ∀ (a s : List Char),
      splitOnL tok (a ++ '\n' :: s) = glue (splitOnL tok a) (splitOnL tok ('\n' :: s)) := by
  suffices H : ∀ (n : Nat) (a s : List Char), a.length ≤ n →
      splitOnL tok (a ++ '\n' :: s) = glue (splitOnL tok a) (splitOnL tok ('\n' :: s)) by
    intro a s
    exact H a.length a s le_rfl
  intro n
  induction n with
  | zero =>
    intro a s ha
    have : a = [] := List.eq_nil_of_length_eq_zero (Nat.le_zero.mp ha)
    subst this
    rw [List.nil_append, splitOnL_nil, glue_nil_chunk _ (splitOnL_ne_nil tok _)]
  | succ n ih =>
    intro a s ha
    cases a with
    | nil => rw [List.nil_append, splitOnL_nil, glue_nil_chunk _ (splitOnL_ne_nil tok _)]
    | cons c a' =>
      show splitOnL tok (c :: (a' ++ '\n' :: s))
        = glue (splitOnL tok (c :: a')) (splitOnL tok ('\n' :: s))
      rw [splitOnL_cons tok htok c (a' ++ '\n' :: s), splitOnL_cons tok htok c a']
      by_cases hpre : isPre tok (c :: a') = true
      · have hpre2 : isPre tok (c :: (a' ++ '\n' :: s)) = true :=
          isPre_append ('\n' :: s) hpre
        rw [if_pos hpre2, if_pos hpre]
        have hlen : tok.length - 1 ≤ a'.length := by
          have := isPre_length hpre
          simp at this
          omega
        rw [List.drop_append_eq_append_drop,
          Nat.sub_eq_zero_of_le hlen, List.drop_zero,
          ih (a'.drop (tok.length - 1)) s
            (by
              have := List.length_drop (tok.length - 1) a'
              have h2 : a'.length ≤ n := by simpa using ha
              omega),
          glue_cons_of_ne _ _ (splitOnL_ne_nil tok _)]
      · have hpre2 : isPre tok (c :: (a' ++ '\n' :: s)) = false := by
          rw [Bool.eq_false_iff]
          intro hT
          by_cases hlen : tok.length ≤ (c :: a').length
          · exact hpre (isPre_of_isPre_append hT hlen)
          · refine hnl (mem_of_isPre_append_long (u := c :: a') hT ?_)
            omega
        rw [if_neg (by simp [hpre2]), if_neg (by simp [hpre])]
        rw [ih a' s (by simpa using ha)]
        exact glue_onHead c _ _ (splitOnL_ne_nil tok _) (splitOnL_ne_nil tok _)

theorem splitOnL_single_append (c : Char) :
    ∀ (x y : List Char), c ∉ x →
      splitOnL [c] (x ++ c :: y) = x :: splitOnL [c] y := by
  intro x
  induction x with
  | nil =>
    intro y _
    rw [List.nil_append, splitOnL_cons [c] (by simp) c y,
      if_pos (by simp [isPre])]
    simp
  | cons d x' ih =>
    intro y hmem
    have hdc : d ≠ c := fun h => hmem (h ▸ List.mem_cons_self _ _)
    rw [List.cons_append, splitOnL_cons [c] (by simp) d (x' ++ c :: y),
      if_neg (by simp [isPre, hdc.symm]),
      ih y (fun h => hmem (List.mem_cons_of_mem _ h))]
    rfl

theorem splitOnL_block (tok body : List Char) (htok : tok ≠ []) (hnl : '\n' ∉ tok)
    (hb : occursIn tok body = false) :
    splitOnL tok ('\n' :: (tok ++ body)) = [['\n'], body] := by
  obtain ⟨t, ts, rfl⟩ : ∃ t ts, tok = t :: ts := by
    cases tok with
    | nil => exact absurd rfl htok
    | cons t ts => exact ⟨t, ts, rfl⟩
  have htne : t ≠ '\n' := fun h => hnl (by rw [← h]; exact List.mem_cons_self _ _)
  rw [splitOnL_cons _ (by simp) '\n' ((t :: ts) ++ body),
    if_neg (by simp [isPre, htne])]
  have h2 : splitOnL (t :: ts) ((t :: ts) ++ body)
      = [] :: splitOnL (t :: ts) ((ts ++ body).drop ((t :: ts).length - 1)) := by
    show splitOnL (t :: ts) (t :: (ts ++ body)) = _
    rw [splitOnL_cons _ (by simp) t (ts ++ body),
      if_pos ((isPre_iff _ _).mpr ⟨body, by simp⟩)]
  rw [h2, show (t :: ts).length - 1 = ts.length by simp, List.drop_left,
    splitOnL_of_not_occurs _ (by simp) body hb]
  rfl

/-! ### Strip lemmas -/

theorem dropWhile_append_of_eq_nil {p : Char → Bool} :
    ∀ {l₁ : List Char} (l₂ : List Char), List.dropWhile p l₁ = [] →
      List.dropWhile p (l₁ ++ l₂) = List.dropWhile p l₂ := by
  intro l₁
  induction l₁ with
  | nil => intro l₂ _; rfl
  | cons a l' ih =>
    intro l₂ h
    rw [List.dropWhile_cons] at h
    by_cases hp : p a
    · rw [List.cons_append, List.dropWhile_cons, if_pos hp]
      exact ih l₂ (by simpa [hp] using h)
    · simp [hp] at h

theorem dropWhile_append_of_ne_nil {p : Char → Bool} :
    ∀ {l₁ : List Char} (l₂ : List Char) {d : Char} {ds : List Char},
      List.dropWhile p l₁ = d :: ds →
      List.dropWhile p (l₁ ++ l₂) = d :: (ds ++ l₂) := by
  intro l₁
  induction l₁ with
  | nil => intro l₂ d ds h; cases h
  | cons a l' ih =>
    intro l₂ d ds h
    rw [List.dropWhile_cons] at h
    by_cases hp : p a
    · rw [List.cons_append, List.dropWhile_cons, if_pos hp]
      exact ih l₂ (by simpa [hp] using h)
    · rw [if_neg hp] at h
      injection h with h1 h2
      subst h1
      subst h2
      rw [List.cons_append, List.dropWhile_cons, if_neg hp]

theorem pystripL_cons_space {c : Char} (hc : isPySpace c = true) (l : List Char) :
    pystripL (c :: l) = pystripL l := by
  simp [pystripL, List.dropWhile_cons, hc]

theorem pystripL_append_space {c : Char} (hc : isPySpace c = true) (l : List Char) :
    pystripL (l ++ [c]) = pystripL l := by
  cases hd : List.dropWhile isPySpace l with
  | nil =>
    rw [pystripL, dropWhile_append_of_eq_nil [c] hd]
    rw [pystripL, hd]
    simp [List.dropWhile_cons, hc]
  | cons d ds =>
    rw [pystripL, dropWhile_append_of_ne_nil [c] hd, pystripL, hd]
    have : (d :: (ds ++ [c])).reverse = c :: (d :: ds).reverse := by simp
    rw [this, List.dropWhile_cons, if_pos hc]

theorem length_dropWhile_le (p : Char → Bool) (l : List Char) :
    (List.dropWhile p l).length ≤ l.length := by
  induction l with
  | nil => simp
  | cons a l' ih =>
    rw [List.dropWhile_cons]
    by_cases hp : p a
    · rw [if_pos hp]
      exact Nat.le_trans ih (by simp)
    · rw [if_neg hp]

theorem pystripL_length_le (l : List Char) : (pystripL l).length ≤ l.length := by
  calc (pystripL l).length
      ≤ ((List.dropWhile isPySpace l).reverse).length := by
        rw [pystripL, List.length_reverse]
        exact length_dropWhile_le _ _
    _ ≤ l.length := by
        rw [List.length_reverse]
        exact length_dropWhile_le _ _

theorem pystripL_self_head {d : Char} {l' : List Char}
    (h : pystripL (d :: l') = d :: l') : isPySpace d = false := by
  by_contra hc
  have hc' : isPySpace d = true := by
    cases hx : isPySpace d with
    | true => rfl
    | false => exact absurd hx hc
  have := pystripL_cons_space hc' l'
  rw [h] at this
  have hlen := pystripL_length_le l'
  rw [← this] at hlen
  simp at hlen

theorem pystripL_self_last {l' : List Char} {e : Char}
    (h : pystripL (l' ++ [e]) = l' ++ [e]) : isPySpace e = false := by
  by_contra hc
  have hc' : isPySpace e = true := by
    cases hx : isPySpace e with
    | true => rfl
    | false => exact absurd hx hc
  have := pystripL_append_space hc' l'
  rw [h] at this
  have hlen := pystripL_length_le l'
  rw [← this] at hlen
  simp at hlen

theorem pystripL_eq_self_of (l : List Char)
    (h1 : ∀ d l', l = d :: l' → isPySpace d = false)
    (h2 : ∀ l' e, l = l' ++ [e] → isPySpace e = false) :
    pystripL l = l := by
  cases l with
  | nil => rfl
  | cons d l' =>
    have hd := h1 d l' rfl
    rcases List.eq_nil_or_concat (d :: l') with hnil | ⟨l'', e, hconc0⟩
    · cases hnil
    · have hconc : d :: l' = l'' ++ [e] := by rw [hconc0, List.concat_eq_append]
      have he := h2 l'' e hconc
      rw [pystripL, List.dropWhile_cons, if_neg (by simp [hd]), hconc]
      have hrev : (l'' ++ [e]).reverse = e :: l''.reverse := by simp
      rw [hrev, List.dropWhile_cons, if_neg (by simp [he])]
      simp

/-! ### Parse lemmas -/

theorem mk_toList (s : String) : String.mk s.toList = s := rfl

theorem splitColon_line : ∀ (k r : List Char), ':' ∉ k →
    splitColon (k ++ ':' :: r) = some (k, r) := by
  intro k
  induction k with
  | nil => intro r _; simp [splitColon]
  | cons a k' ih =>
    intro r hmem
    have ha : a ≠ ':' := fun h => hmem (h ▸ List.mem_cons_self _ _)
    rw [List.cons_append, splitColon, if_neg ha,
      ih r (fun h => hmem (List.mem_cons_of_mem _ h))]
    rfl

theorem insertPy_notmem : ∀ (m : List (String × String)) (k v : String),
    k ∉ m.map Prod.fst → insertPy m k v = m ++ [(k, v)] := by
  intro m
  induction m with
  | nil => intro k v _; rfl
  | cons kv rest ih =>
    intro k v hmem
    have h1 : kv.1 ≠ k := by
      intro h
      exact hmem (List.mem_map.mpr ⟨kv, List.mem_cons_self _ _, h⟩)
    rw [insertPy, if_neg h1, ih k v (fun h => hmem (by
      obtain ⟨kv', hkv', hfst⟩ := List.mem_map.mp h
      exact List.mem_map.mpr ⟨kv', List.mem_cons_of_mem _ hkv', hfst⟩))]
    rfl

theorem parseLines_clean : ∀ (kvs m : List (String × String)),
    (∀ kv ∈ kvs, ':' ∉ kv.1.toList ∧ pystripL kv.1.toList = kv.1.toList) →
    (∀ kv ∈ kvs, pystripL kv.2.toList = kv.2.toList) →
    (∀ kv ∈ kvs, kv.1 ∉ m.map Prod.fst) →
    (kvs.map Prod.fst).Nodup →
    parseLines m (kvs.map lineOf) = m ++ kvs := by
  intro kvs
  induction kvs with
  | nil => intro m _ _ _ _; simp [parseLines]
  | cons kv rest ih =>
    intro m hkeys hvals hdisj hnodup
    obtain ⟨hk1, hk2⟩ := hkeys kv (List.mem_cons_self _ _)
    have hv := hvals kv (List.mem_cons_self _ _)
    rw [List.map_cons, parseLines, lineOf, splitColon_line kv.1.toList _ hk1]
    have hval : pystripL (' ' :: kv.2.toList) = kv.2.toList := by
      rw [pystripL_cons_space (by decide), hv]
    show parseLines (insertPy m (String.mk (pystripL kv.1.toList))
        (String.mk (pystripL (' ' :: kv.2.toList)))) (List.map lineOf rest) = m ++ kv :: rest
    rw [hval, hk2, mk_toList, mk_toList,
      insertPy_notmem m kv.1 kv.2 (hdisj kv (List.mem_cons_self _ _))]
    rw [List.map_cons, List.nodup_cons] at hnodup
    rw [ih (m ++ [(kv.1, kv.2)])
      (fun kv' h => hkeys kv' (List.mem_cons_of_mem _ h))
      (fun kv' h => hvals kv' (List.mem_cons_of_mem _ h))
      (fun kv' h => by
        rw [List.map_append, List.mem_append]
        rintro (hm | hsing)
        · exact hdisj kv' (List.mem_cons_of_mem _ h) hm
        · simp only [List.map_cons, List.map_nil, List.mem_singleton] at hsing
          exact hnodup.1 (hsing ▸ List.mem_map.mpr ⟨kv', h, rfl⟩))
      hnodup.2]
    simp

theorem occursIn_single (c : Char) (l : List Char) :
    occursIn [c] l = true ↔ c ∈ l := by
  rw [occursIn_iff]
  constructor
  · rintro ⟨a, b, rfl⟩
    simp
  · intro h
    obtain ⟨s, t, rfl⟩ := List.append_of_mem h
    exact ⟨s, t, by simp⟩

theorem mkBodyL_cons (kv : String × String) (rest : List (String × String)) :
    mkBodyL (kv :: rest) = '\n' :: (lineOf kv ++ mkBodyL rest) := by
  cases rest with
  | nil => simp [mkBodyL]
  | cons kv' rest' => rfl

theorem nl_not_mem_lineOf {kv : String × String}
    (hk : '\n' ∉ kv.1.toList) (hv : '\n' ∉ kv.2.toList) : '\n' ∉ lineOf kv := by
  rw [lineOf]
  intro h
  rcases List.mem_append.mp h with h | h
  · exact hk h
  · rcases List.mem_cons.mp h with h | h
    · cases h
    · rcases List.mem_cons.mp h with h | h
      · cases h
      · exact hv h

theorem splitNl_body : ∀ (rest : List (String × String)) (kv : String × String),
    '\n' ∉ lineOf kv → (∀ kv' ∈ rest, '\n' ∉ lineOf kv') →
    splitOnL ['\n'] (lineOf kv ++ mkBodyL rest) = lineOf kv :: rest.map lineOf := by
  intro rest
  induction rest with
  | nil =>
    intro kv hl _
    rw [mkBodyL, List.append_nil,
      splitOnL_of_not_occurs ['\n'] (by simp) _ (by
        rw [Bool.eq_false_iff]
        intro hc
        exact hl ((occursIn_single '\n' _).mp hc))]
    rfl
  | cons kv' rest' ih =>
    intro kv hl hrest
    rw [mkBodyL_cons, splitOnL_single_append '\n' _ _ hl,
      ih kv' (hrest kv' (List.mem_cons_self _ _))
        (fun kv'' h => hrest kv'' (List.mem_cons_of_mem _ h))]
    rfl

theorem getLast?_append_singleton (l : List Char) (a : Char) :
    (l ++ [a]).getLast? = some a := by
  induction l with
  | nil => rfl
  | cons b l' ih =>
    cases l' with
    | nil => rfl
    | cons c l'' =>
      simp only [List.cons_append, List.getLast?_cons_cons]
      simpa using ih

theorem mem_of_getLast?_eq :
    ∀ {kvs : List (String × String)} {kv : String × String},
      kvs.getLast? = some kv → kv ∈ kvs := by
  intro kvs
  induction kvs with
  | nil => intro kv h; cases h
  | cons kv0 rest ih =>
    intro kv h
    cases rest with
    | nil =>
      rw [List.getLast?_singleton] at h
      injection h with h'
      subst h'
      exact List.mem_cons_self _ _
    | cons kv1 rest' =>
      rw [List.getLast?_cons_cons] at h
      exact List.mem_cons_of_mem _ (ih h)

theorem mkBody_ends_with_last_val :
    ∀ (kvs : List (String × String)) (kv : String × String),
      kvs.getLast? = some kv → ∃ pre, mkBodyL kvs = '\n' :: (pre ++ kv.2.toList) := by
  intro kvs
  induction kvs with
  | nil => intro kv h; cases h
  | cons kv0 rest ih =>
    intro kv h
    cases rest with
    | nil =>
      rw [List.getLast?_singleton] at h
      injection h with h'
      subst h'
      exact ⟨kv0.1.toList ++ [':', ' '], by simp [mkBodyL, lineOf]⟩
    | cons kv1 rest' =>
      rw [List.getLast?_cons_cons] at h
      obtain ⟨pre, hpre⟩ := ih kv h
      exact ⟨lineOf kv0 ++ '\n' :: pre, by rw [mkBodyL_cons, hpre]; simp⟩

theorem pystripL_mkBody (kv : String × String) (rest : List (String × String))
    (hk : kv.1.toList ≠ []) (hks : pystripL kv.1.toList = kv.1.toList)
    (klast : String × String) (hlast : (kv :: rest).getLast? = some klast)
    (hv : klast.2.toList ≠ []) (hvs : pystripL klast.2.toList = klast.2.toList) :
    pystripL (mkBodyL (kv :: rest)) = lineOf kv ++ mkBodyL rest := by
  rw [mkBodyL_cons, pystripL_cons_space (by decide)]
  apply pystripL_eq_self_of
  · intro d l' hdl
    obtain ⟨k0, k', hk0⟩ : ∃ k0 k', kv.1.toList = k0 :: k' := by
      cases hx : kv.1.toList with
      | nil => exact absurd hx hk
      | cons k0 k' => exact ⟨k0, k', rfl⟩
    have hhead : isPySpace k0 = false := pystripL_self_head (by rw [← hk0, hks])
    rw [lineOf, hk0] at hdl
    simp only [List.cons_append, List.cons.injEq] at hdl
    rw [← hdl.1]
    exact hhead
  · intro l' e hle
    obtain ⟨pre, hpre⟩ := mkBody_ends_with_last_val (kv :: rest) klast hlast
    rw [mkBodyL_cons] at hpre
    injection hpre with hpre0 hpre'
    obtain ⟨v', ev, hvconc0⟩ := (List.eq_nil_or_concat klast.2.toList).resolve_left hv
    have hvconc : klast.2.toList = v' ++ [ev] := by
      rw [hvconc0, List.concat_eq_append]
    have hev : isPySpace ev = false := pystripL_self_last (by rw [← hvconc, hvs])
    have hwhole : lineOf kv ++ mkBodyL rest = (pre ++ v') ++ [ev] := by
      rw [hpre', hvconc]
      simp
    have h1 : some e = some ev := by
      rw [← getLast?_append_singleton l' e, ← hle, hwhole, getLast?_append_singleton]
    injection h1 with h1'
    rw [h1']
    exact hev

theorem parseSection_mkBody (kv : String × String) (rest : List (String × String))
    (hkeys : ∀ kv' ∈ kv :: rest, kv'.1.toList ≠ [] ∧ ':' ∉ kv'.1.toList
      ∧ '\n' ∉ kv'.1.toList ∧ pystripL kv'.1.toList = kv'.1.toList)
    (hvals : ∀ kv' ∈ kv :: rest, '\n' ∉ kv'.2.toList ∧ pystripL kv'.2.toList = kv'.2.toList)
    (hnodup : ((kv :: rest).map Prod.fst).Nodup)
    (klast : String × String) (hlast : (kv :: rest).getLast? = some klast)
    (hv : klast.2.toList ≠ []) :
    parseSection (mkBodyL (kv :: rest)) = kv :: rest := by
  obtain ⟨hk1, _, hk3, hk4⟩ := hkeys kv (List.mem_cons_self _ _)
  have hvlast := hvals klast (mem_of_getLast?_eq hlast)
  rw [parseSection, pystripL_mkBody kv rest hk1 hk4 klast hlast hv hvlast.2,
    splitNl_body rest kv
      (nl_not_mem_lineOf hk3 (hvals kv (List.mem_cons_self _ _)).1)
      (fun kv' h => nl_not_mem_lineOf (hkeys kv' (List.mem_cons_of_mem _ h)).2.2.1
        (hvals kv' (List.mem_cons_of_mem _ h)).1)]
  have := parseLines_clean (kv :: rest) []
    (fun kv' h => ⟨(hkeys kv' h).2.1, (hkeys kv' h).2.2.2⟩)
    (fun kv' h => (hvals kv' h).2)
    (fun kv' _ => by simp)
    hnodup
  exact this

theorem parseSection_append_nl (chunk : List Char) :
    parseSection (chunk ++ ['\n']) = parseSection chunk := by
  rw [parseSection, pystripL_append_space (by decide), parseSection]

theorem mapLast_ne_nil {f : List Char → List Char} {X : List (List Char)}
    (hX : X ≠ []) : mapLast f X ≠ [] := by
  cases X with
  | nil => exact absurd rfl hX
  | cons x xs => cases xs <;> simp [mapLast]

theorem glue_block (B : List Char) :
    ∀ (X : List (List Char)), X ≠ [] →
      glue X [['\n'], B] = mapLast (fun x => x ++ ['\n']) X ++ [B] := by
  intro X
  induction X with
  | nil => intro h; exact absurd rfl h
  | cons x xs ih =>
    intro _
    cases xs with
    | nil => simp [glue, mapLast]
    | cons x' xs' =>
      rw [glue_cons_of_ne _ _ (by simp), ih (by simp)]
      rfl

theorem mapLast_drop_one (f : List Char → List Char) :
    ∀ X : List (List Char), (mapLast f X).drop 1 = mapLast f (X.drop 1) := by
  intro X
  cases X with
  | nil => rfl
  | cons x xs =>
    cases xs with
    | nil => rfl
    | cons x' xs' => rfl

theorem map_mapLast {g : List Char → List (String × String)}
    {f : List Char → List Char} (hg : ∀ x, g (f x) = g x) :
    ∀ X : List (List Char), (mapLast f X).map g = X.map g := by
  intro X
  induction X with
  | nil => rfl
  | cons x xs ih =>
    cases xs with
    | nil => simp [mapLast, hg]
    | cons x' xs' =>
      rw [show mapLast f (x :: x' :: xs') = x :: mapLast f (x' :: xs') from rfl,
        List.map_cons, List.map_cons, ih]

theorem drop_one_append (l₁ l₂ : List (List Char)) (h : l₁ ≠ []) :
    (l₁ ++ l₂).drop 1 = l₁.drop 1 ++ l₂ := by
  cases l₁ with
  | nil => exact absurd rfl h
  | cons x xs => rfl

theorem markerTok_ne_nil (mL : List Char) : markerTok mL ≠ [] := by
  rw [markerTok, show "--- ".toList = ['-', '-', '-', ' '] from rfl]
  simp

theorem nl_not_mem_markerTok {mL : List Char} (h : '\n' ∉ mL) :
    '\n' ∉ markerTok mL := by
  rw [markerTok, show "--- ".toList = ['-', '-', '-', ' '] from rfl,
    show " ---".toList = [' ', '-', '-', '-'] from rfl]
  intro hc
  rcases List.mem_append.mp hc with hc | hc
  · rcases List.mem_append.mp hc with hc | hc
    · simp at hc
    · exact h hc
  · simp at hc

theorem occursIn_marker_of_tok {mL s : List Char}
    (h : occursIn (markerTok mL) s = true) : occursIn mL s = true := by
  obtain ⟨a, b, rfl⟩ := (occursIn_iff _ s).mp h
  exact (occursIn_iff mL _).mpr ⟨a ++ "--- ".toList, " ---".toList ++ b, by
    simp [markerTok]⟩

/-- Core of the round-trip: appending one well-formed encoded block to any
note extends the decoded history for that marker by exactly the block's
fields. -/
theorem decodeL_append_block (mL : List Char) (kv0 : String × String)
    (rest : List (String × String)) (noteL : List Char)
    (hmnl : '\n' ∉ mL)
    (hkeys : ∀ kv' ∈ kv0 :: rest, kv'.1.toList ≠ [] ∧ ':' ∉ kv'.1.toList
      ∧ '\n' ∉ kv'.1.toList ∧ pystripL kv'.1.toList = kv'.1.toList)
    (hvals : ∀ kv' ∈ kv0 :: rest, '\n' ∉ kv'.2.toList
      ∧ pystripL kv'.2.toList = kv'.2.toList)
    (hnodup : ((kv0 :: rest).map Prod.fst).Nodup)
    (klast : String × String) (hlast : (kv0 :: rest).getLast? = some klast)
    (hvne : klast.2.toList ≠ [])
    (hbody : occursIn (markerTok mL) (mkBodyL (kv0 :: rest)) = false) :
    decodeEventsL mL (noteL ++ '\n' :: (markerTok mL ++ mkBodyL (kv0 :: rest)))
      = decodeEventsL mL noteL ++ [kv0 :: rest] := by
  have htokne := markerTok_ne_nil mL
  have htoknl := nl_not_mem_markerTok hmnl
  have hguard : occursIn mL (noteL ++ '\n' :: (markerTok mL ++ mkBodyL (kv0 :: rest)))
      = true := by
    refine (occursIn_iff mL _).mpr
      ⟨noteL ++ '\n' :: "--- ".toList,
        " ---".toList ++ mkBodyL (kv0 :: rest), ?_⟩
    simp [markerTok]
  have hsection : parseSection (mkBodyL (kv0 :: rest)) = kv0 :: rest :=
    parseSection_mkBody kv0 rest hkeys hvals hnodup klast hlast hvne
  rw [decodeEventsL, if_pos hguard,
    splitOnL_append_nl (markerTok mL) htokne htoknl noteL _,
    splitOnL_block (markerTok mL) _ htokne htoknl hbody,
    glue_block _ _ (splitOnL_ne_nil _ noteL),
    drop_one_append _ _ (mapLast_ne_nil (splitOnL_ne_nil _ noteL)),
    mapLast_drop_one, List.map_append, List.filter_append,
    map_mapLast parseSection_append_nl]
  have hblockpart : ((List.map parseSection [mkBodyL (kv0 :: rest)]).filter
      (fun e => !e.isEmpty)) = [kv0 :: rest] := by
    rw [List.map_cons, List.map_nil, hsection]
    simp
  rw [hblockpart]
  by_cases hg : occursIn mL noteL = true
  · rw [decodeEventsL, if_pos hg]
  · have hnotok : occursIn (markerTok mL) noteL = false := by
      rw [Bool.eq_false_iff]
      intro hc
      exact absurd (occursIn_marker_of_tok hc) (by simpa using hg)
    rw [decodeEventsL, if_neg (by simpa using hg),
      splitOnL_of_not_occurs _ htokne noteL hnotok]
    simp

theorem toList_append (a b : String) : (a ++ b).toList = a.toList ++ b.toList := rfl

theorem appendNote_toList (note block : String) :
    (appendNote note block).toList = note.toList ++ block.toList := by
  by_cases h : note = ""
  · subst h
    rw [appendNote, if_pos rfl]
    rfl
  · rw [appendNote, if_neg h, toList_append]

theorem toList_ne_nil {s : String} (h : s ≠ "") : s.toList ≠ [] := by
  intro hc
  exact h (by rw [← mk_toList s, hc])

theorem lit_res0 : "\n--- RESCHEDULE INFO ---\nNew Delivery Date: ".toList
    = '\n' :: ("--- ".toList ++ "RESCHEDULE INFO".toList ++ " ---".toList)
      ++ '\n' :: ("New Delivery Date".toList ++ [':', ' ']) := rfl

theorem lit_res1 : "\nReason: ".toList = '\n' :: ("Reason".toList ++ [':', ' ']) := rfl

theorem lit_res2 : "\nDelivery Partner: ".toList
    = '\n' :: ("Delivery Partner".toList ++ [':', ' ']) := rfl

theorem lit_res3 : "\nRescheduled on: ".toList
    = '\n' :: ("Rescheduled on".toList ++ [':', ' ']) := rfl

theorem lit_pu0 : "\n--- DELIVERY PARTNER UPDATE ---\nNew Partner: ".toList
    = '\n' :: ("--- ".toList ++ "DELIVERY PARTNER UPDATE".toList ++ " ---".toList)
      ++ '\n' :: ("New Partner".toList ++ [':', ' ']) := rfl

theorem lit_pu1 : "\nUpdated on: ".toList = '\n' :: ("Updated on".toList ++ [':', ' ']) := rfl

theorem lit_h0 : "\n--- ORDER ON HOLD ---\nReason: ".toList
    = '\n' :: ("--- ".toList ++ "ORDER ON HOLD".toList ++ " ---".toList)
      ++ '\n' :: ("Reason".toList ++ [':', ' ']) := rfl

theorem lit_h1 : "\nHeld on: ".toList = '\n' :: ("Held on".toList ++ [':', ' ']) := rfl

theorem lit_s0 : "\n--- DELIVERY SCHEDULED ---\nDate: ".toList
    = '\n' :: ("--- ".toList ++ "DELIVERY SCHEDULED".toList ++ " ---".toList)
      ++ '\n' :: ("Date".toList ++ [':', ' ']) := rfl

theorem lit_s1 : "\nTime: ".toList = '\n' :: ("Time".toList ++ [':', ' ']) := rfl

theorem lit_s2 : "\nScheduled on: ".toList
    = '\n' :: ("Scheduled on".toList ++ [':', ' ']) := rfl

theorem lit_n0 : "\n--- CUSTOMER NOTIFICATION ---\nMessage: ".toList
    = '\n' :: ("--- ".toList ++ "CUSTOMER NOTIFICATION".toList ++ " ---".toList)
      ++ '\n' :: ("Message".toList ++ [':', ' ']) := rfl

theorem lit_n1 : "\nSent on: ".toList = '\n' :: ("Sent on".toList ++ [':', ' ']) := rfl

theorem encode_toList (e : DeliveryEvent) :
    (encodeEvent e).toList
      = '\n' :: (markerTok (markerOf e).toList ++ mkBodyL (eventFields e)) := by
  cases e <;>
    simp only [encodeEvent, markerOf, eventFields, toList_append, mkBodyL, lineOf,
      markerTok, lit_res0, lit_res1, lit_res2, lit_res3, lit_pu0, lit_pu1, lit_h0,
      lit_h1, lit_s0, lit_s1, lit_s2, lit_n0, lit_n1] <;>
    try simp [List.append_assoc]

theorem decodeEventsL_nil (mL : List Char) : decodeEventsL mL [] = [] := by
  rw [decodeEventsL]
  split <;> rfl

theorem keyOk_newDeliveryDate : KeyClean "New Delivery Date" := by decide

theorem keyOk_reason : KeyClean "Reason" := by decide

theorem keyOk_deliveryPartner : KeyClean "Delivery Partner" := by decide

theorem keyOk_rescheduledOn : KeyClean "Rescheduled on" := by decide

theorem keyOk_newPartner : KeyClean "New Partner" := by decide

theorem keyOk_updatedOn : KeyClean "Updated on" := by decide

theorem keyOk_heldOn : KeyClean "Held on" := by decide

theorem keyOk_date : KeyClean "Date" := by decide

theorem keyOk_time : KeyClean "Time" := by decide

theorem keyOk_scheduledOn : KeyClean "Scheduled on" := by decide

theorem keyOk_message : KeyClean "Message" := by decide

theorem keyOk_sentOn : KeyClean "Sent on" := by decide

theorem nodup_res :
    (["New Delivery Date", "Reason", "Delivery Partner", "Rescheduled on"] :
      List String).Nodup := by decide

theorem nodup_pu : (["New Partner", "Updated on"] : List String).Nodup := by decide

theorem nodup_hold : (["Reason", "Held on"] : List String).Nodup := by decide

theorem nodup_sched : (["Date", "Time", "Scheduled on"] : List String).Nodup := by decide

theorem nodup_notif : (["Message", "Sent on"] : List String).Nodup := by decide

/-- C3: for every delivery-event variant with well-formed field values and
every prior note text, decoding the note after appending the encoded block
yields the prior decoded history followed by exactly that event's key/value
fields; with an empty prior note the decoded history is exactly the one
event. -/
theorem c3_note_codec_roundtrip (e : DeliveryEvent) (hc : CleanEvent e) :
    (∀ note : String,
      decodeEvents (markerOf e) (appendNote note (encodeEvent e))
        = decodeEvents (markerOf e) note ++ [eventFields e])
    ∧ decodeEvents (markerOf e) (appendNote "" (encodeEvent e)) = [eventFields e] := by
  obtain ⟨hfields, hts, hbody⟩ := hc
  have hmain : ∀ note : String,
      decodeEvents (markerOf e) (appendNote note (encodeEvent e))
        = decodeEvents (markerOf e) note ++ [eventFields e] := by
    intro note
    show decodeEventsL (markerOf e).toList (appendNote note (encodeEvent e)).toList
      = decodeEventsL (markerOf e).toList note.toList ++ [eventFields e]
    rw [appendNote_toList, encode_toList]
    cases e with
    | reschedule d r p ts =>
      exact decodeL_append_block "RESCHEDULE INFO".toList ("New Delivery Date", d)
        [("Reason", r), ("Delivery Partner", p), ("Rescheduled on", ts)] note.toList
        (by decide)
        (fun kv' h => by
          fin_cases h
          exacts [keyOk_newDeliveryDate, keyOk_reason, keyOk_deliveryPartner,
            keyOk_rescheduledOn])
        (fun kv' h => hfields kv' h)
        nodup_res
        ("Rescheduled on", ts) rfl (toList_ne_nil hts) hbody
    | partnerUpdate p ts =>
      exact decodeL_append_block "DELIVERY PARTNER UPDATE".toList ("New Partner", p)
        [("Updated on", ts)] note.toList
        (by decide)
        (fun kv' h => by
          fin_cases h
          exacts [keyOk_newPartner, keyOk_updatedOn])
        (fun kv' h => hfields kv' h)
        nodup_pu
        ("Updated on", ts) rfl (toList_ne_nil hts) hbody
    | hold r ts =>
      exact decodeL_append_block "ORDER ON HOLD".toList ("Reason", r)
        [("Held on", ts)] note.toList
        (by decide)
        (fun kv' h => by
          fin_cases h
          exacts [keyOk_reason, keyOk_heldOn])
        (fun kv' h => hfields kv' h)
        nodup_hold
        ("Held on", ts) rfl (toList_ne_nil hts) hbody
    | scheduled d t ts =>
      exact decodeL_append_block "DELIVERY SCHEDULED".toList ("Date", d)
        [("Time", t), ("Scheduled on", ts)] note.toList
        (by decide)
        (fun kv' h => by
          fin_cases h
          exacts [keyOk_date, keyOk_time, keyOk_scheduledOn])
        (fun kv' h => hfields kv' h)
        nodup_sched
        ("Scheduled on", ts) rfl (toList_ne_nil hts) hbody
    | notification m ts =>
      exact decodeL_append_block "CUSTOMER NOTIFICATION".toList ("Message", m)
        [("Sent on", ts)] note.toList
        (by decide)
        (fun kv' h => by
          fin_cases h
          exacts [keyOk_message, keyOk_sentOn])
        (fun kv' h => hfields kv' h)
        nodup_notif
        ("Sent on", ts) rfl (toList_ne_nil hts) hbody
  refine ⟨hmain, ?_⟩
  rw [hmain ""]
  show decodeEventsL (markerOf e).toList [] ++ [eventFields e] = [eventFields e]
  rw [decodeEventsL_nil]
  rfl

theorem c3_note_codec_roundtrip_witness :
    CleanEvent eventW
    ∧ ((∀ note : String,
        decodeEvents (markerOf eventW) (appendNote note (encodeEvent eventW))
          = decodeEvents (markerOf eventW) note ++ [eventFields eventW])
      ∧ decodeEvents (markerOf eventW) (appendNote "" (encodeEvent eventW))
          = [eventFields eventW]) :=
  ⟨by decide, c3_note_codec_roundtrip eventW (by decide)⟩

theorem split_around (tok : List Char) (htok : tok ≠ []) (hbf : borderFree tok) :
    ∀ (a d : List Char), occursIn tok a = false → occursIn tok d = false →
      splitOnL tok (a ++ (tok ++ d)) = [a, d] := by
  intro a
  induction a with
  | nil =>
    intro d _ hd
    rw [List.nil_append]
    obtain ⟨t, ts, rfl⟩ : ∃ t ts, tok = t :: ts := by
      cases tok with
      | nil => exact absurd rfl htok
      | cons t ts => exact ⟨t, ts, rfl⟩
    show splitOnL (t :: ts) (t :: (ts ++ d)) = [[], d]
    rw [splitOnL_cons _ (by simp) t (ts ++ d),
      if_pos ((isPre_iff _ _).mpr ⟨d, by simp⟩),
      show (t :: ts).length - 1 = ts.length by simp, List.drop_left,
      splitOnL_of_not_occurs _ (by simp) d hd]
  | cons c a' ih =>
    intro d ha hd
    have ha' : isPre tok (c :: a') = false ∧ occursIn tok a' = false := by
      rw [occursIn, Bool.or_eq_false_iff] at ha
      exact ha
    show splitOnL tok (c :: (a' ++ (tok ++ d))) = [c :: a', d]
    rw [splitOnL_cons tok htok c _]
    have hpre2 : isPre tok (c :: (a' ++ (tok ++ d))) = false := by
      rw [Bool.eq_false_iff]
      intro hT
      by_cases hlen : tok.length ≤ (c :: a').length
      · exact absurd (isPre_of_isPre_append (u := c :: a') (v := tok ++ d) hT hlen)
          (by simp [ha'.1])
      · have hn : (c :: a').length < tok.length := by omega
        obtain ⟨r, hr⟩ := (isPre_iff tok _).mp hT
        have hr' : (c :: a') ++ (tok ++ d) = tok ++ r := hr
        have hdroppart : tok ++ d = tok.drop (c :: a').length ++ r := by
          have h2 := List.drop_left (c :: a') (tok ++ d)
          rw [hr', List.drop_append_eq_append_drop,
            Nat.sub_eq_zero_of_le (Nat.le_of_lt hn), List.drop_zero] at h2
          exact h2.symm
        have hw : tok.take (tok.length - (c :: a').length)
            = tok.drop (c :: a').length := by
          have hwlen : (tok.drop (c :: a').length).length
              = tok.length - (c :: a').length := by simp
          have h3 : (tok ++ d).take (tok.length - (c :: a').length)
              = (tok.drop (c :: a').length ++ r).take
                  (tok.length - (c :: a').length) := by rw [← hdroppart]
          rw [List.take_append_eq_append_take,
            Nat.sub_eq_zero_of_le
              (show tok.length - (c :: a').length ≤ tok.length from by omega),
            List.take_zero, List.append_nil, ← hwlen, List.take_left] at h3
          rw [hwlen] at h3
          exact h3
        have hk1 : tok.length - (c :: a').length < tok.length := by
          have : 0 < (c :: a').length := by simp
          omega
        have hk2 : 0 < tok.length - (c :: a').length := by omega
        refine hbf (tok.length - (c :: a').length) hk1 hk2 ?_
        rw [hw, show tok.length - (tok.length - (c :: a').length) = (c :: a').length
          by omega]
    rw [if_neg (by simp [hpre2]), ih d ha'.2 hd]
    rfl

theorem lit_resched_space : "Rescheduled to ".toList = rtok ++ [' '] := rfl

theorem isPre_rtok_space (x : List Char) : isPre rtok (' ' :: x) = false := by
  rw [show rtok = 'R' :: "escheduled to".toList from rfl]
  simp [isPre]

theorem occursIn_rtok_space {x : List Char} (hx : occursIn rtok x = false) :
    occursIn rtok (' ' :: x) = false := by
  rw [occursIn, isPre_rtok_space, hx]
  rfl

/-- C8 amended: the fragment the code re-embeds is the text between the
first and second occurrences of "Rescheduled to", whitespace-stripped.  For
a title of the generated shape `<prefix>Rescheduled to <date>` — one
occurrence, exactly one space, no padding inside the date — the date is
preserved and the first line becomes `<newPartner> - Rescheduled to <date>`;
a title without the substring is replaced by the bare partner name. -/
theorem c8_partner_title_amended (np a d : String) (rest : List String)
    (ha : occursIn rtok a.toList = false)
    (hd : occursIn rtok d.toList = false)
    (hds : pystripL d.toList = d.toList) :
    updateDeliveryPartnerLines np ((a ++ "Rescheduled to " ++ d) :: rest)
      = (np ++ " - Rescheduled to " ++ d) :: rest
    ∧ (∀ t : String, occursIn rtok t.toList = false →
        updateDeliveryPartnerLines np (t :: rest) = np :: rest) := by
  constructor
  · have hbf : borderFree rtok := by decide
    have htl : (a ++ "Rescheduled to " ++ d).toList
        = a.toList ++ (rtok ++ (' ' :: d.toList)) := by
      rw [toList_append, toList_append, lit_resched_space]
      simp [List.append_assoc]
    have hsplit : splitOnL rtok (a.toList ++ (rtok ++ (' ' :: d.toList)))
        = [a.toList, ' ' :: d.toList] :=
      split_around rtok (by decide) hbf a.toList (' ' :: d.toList) ha
        (occursIn_rtok_space hd)
    have hguard : occursIn rtok (a ++ "Rescheduled to " ++ d).toList = true := by
      rw [htl]
      exact (occursIn_iff rtok _).mpr
        ⟨a.toList, ' ' :: d.toList, by simp [List.append_assoc]⟩
    rw [updateDeliveryPartnerLines, updatePartnerTitle, if_pos hguard, htl, hsplit]
    show (np ++ " - Rescheduled to " ++
      String.mk (pystripL (' ' :: d.toList))) :: rest = _
    rw [pystripL_cons_space (by decide), hds, mk_toList]
  · intro t ht
    have ht' : occursIn rtok t.data = false := ht
    rw [updateDeliveryPartnerLines, updatePartnerTitle, if_neg (by simp [ht'])]

/-- C8 counterexample: the claim promises the fragment following
"Rescheduled to" is preserved verbatim, but with two occurrences the code
keeps only the stripped text between the first two occurrences — the
original fragment "B Rescheduled to C" is lost from the result. -/
theorem c8_counterexample :
    updatePartnerTitle "NewPartner" "A Rescheduled to B Rescheduled to C"
      = "NewPartner - Rescheduled to B"
    ∧ occursIn "B Rescheduled to C".toList
        "NewPartner - Rescheduled to B".toList = false := ⟨rfl, rfl⟩

theorem c8_partner_title_amended_witness :
    updateDeliveryPartnerLines "BlueDart"
        [("India Post Domestic - " ++ "Rescheduled to " ++ "2025-01-15")]
      = [("BlueDart" ++ " - Rescheduled to " ++ "2025-01-15")] :=
  (c8_partner_title_amended "BlueDart" "India Post Domestic - " "2025-01-15" []
    (by decide) (by decide) (by decide)).1

end Bot
